import Mathlib

/-!
# gui2::slider_base

A shallow embedding of `src/gui/widgets/slider_base.{hpp,cpp}` and the
properties of its geometry engine and interaction state machine.

Conventions of the embedding

* `int` values are mathematical integers. Signed overflow is undefined
  behaviour in C++, so the embedding describes the overflow-free executions.
  `unsigned` arithmetic and the conversions between `unsigned` and `int` wrap
  modulo `2^32`; they are written out with `to_unsigned` and `to_int`.
* `float` is IEEE-754 binary32 with round-to-nearest-even (`gui2.float`).
* An operation that can abort (a failed `assert`, an integer division by
  zero) returns `Except failure _`.
* The pure virtual hooks of the class are the fields of `hooks`; each one
  receives the widget it is called on.
* Effects on collaborators are recorded in the widget: the number of
  `NOTIFY_MODIFIED` events fired, the calls of `window::mouse_capture`, the
  canvas variables and the dirty flag.
-/

set_option linter.unusedVariables false

namespace gui2

/-! ## Machine integers -/

/-- Conversion to `unsigned`: the representative modulo `2^32` in `[0, 2^32)`. -/
def to_unsigned (z : Int) : Int := z % 2 ^ 32

/-- Conversion to `int`: the representative modulo `2^32` in `[-2^31, 2^31)`. -/
def to_int (z : Int) : Int := (z + 2 ^ 31) % 2 ^ 32 - 2 ^ 31

/-! ## binary32 -/

/-- Values of the C++ type `float`. A finite value is `(-1)^neg * m * 2^e`,
kept in the canonical form of binary32: `m < 2^24`, `-149 ≤ e ≤ 104`, and
`2^23 ≤ m` unless `e = -149` (subnormals and zero). -/
inductive float where
  | finite (neg : Bool) (m : Nat) (e : Int)
  | inf (neg : Bool)
  | nan
deriving DecidableEq

/-- Helper for `ilog2`: at most `fuel` halvings. -/
def log2_fuel : Nat → Nat → Nat
  | 0, _ => 0
  | fuel + 1, n => if 2 ≤ n then log2_fuel fuel (n / 2) + 1 else 0

/-- The integer `floor (log2 n)` for `1 ≤ n`. -/
def ilog2 (n : Nat) : Nat := log2_fuel n n

/-- The quotient `a / b` rounded to the nearest integer, ties to even. -/
def div_half_even (a b : Nat) : Nat :=
  let q := a / b
  let r := a % b
  if 2 * r < b then q
  else if b < 2 * r then q + 1
  else if q % 2 = 0 then q else q + 1

/-- Whether `2^k ≤ a / b`, for `0 < b`. -/
def ge_pow2 (a b : Nat) (k : Int) : Bool :=
  if 0 ≤ k then decide (b * 2 ^ k.toNat ≤ a) else decide (b ≤ a * 2 ^ (-k).toNat)

namespace float

/-- The binary32 value nearest to `(-1)^neg * a / b` (ties to even), for
`0 < b`; magnitudes that round to `2^128` or more become an infinity. -/
def round_ratio (neg : Bool) (a b : Nat) : float :=
  if a = 0 then finite neg 0 (-149)
  else
    let k : Int := (ilog2 a : Int) - (ilog2 b : Int)
    let E : Int := if ge_pow2 a b k then k else k - 1
    let e : Int := max (E - 23) (-149)
    let m : Nat :=
      if 0 ≤ e then div_half_even a (b * 2 ^ e.toNat)
      else div_half_even (a * 2 ^ (-e).toNat) b
    let m1 : Nat := if m = 2 ^ 24 then 2 ^ 23 else m
    let e1 : Int := if m = 2 ^ 24 then e + 1 else e
    if 104 < e1 then inf neg else finite neg m1 e1

/-- Conversion of an integer (`int` or `unsigned`) to `float`. -/
def of_int (i : Int) : float := round_ratio (decide (i < 0)) i.natAbs 1

/-- The constant `0.0`. -/
def zero : float := finite false 0 (-149)

/-- Multiplication of two floats. -/
def mul : float → float → float
  | finite n1 m1 e1, finite n2 m2 e2 =>
    if 0 ≤ e1 + e2 then round_ratio (xor n1 n2) (m1 * m2 * 2 ^ (e1 + e2).toNat) 1
    else round_ratio (xor n1 n2) (m1 * m2) (2 ^ (-(e1 + e2)).toNat)
  | finite n1 m1 _, inf n2 => if m1 = 0 then nan else inf (xor n1 n2)
  | inf n1, finite n2 m2 _ => if m2 = 0 then nan else inf (xor n1 n2)
  | inf n1, inf n2 => inf (xor n1 n2)
  | nan, _ => nan
  | _, nan => nan

/-- Division of two floats. -/
def div : float → float → float
  | finite n1 m1 e1, finite n2 m2 e2 =>
    if m2 = 0 then (if m1 = 0 then nan else inf (xor n1 n2))
    else if 0 ≤ e1 - e2 then round_ratio (xor n1 n2) (m1 * 2 ^ (e1 - e2).toNat) m2
    else round_ratio (xor n1 n2) m1 (m2 * 2 ^ (-(e1 - e2)).toNat)
  | finite n1 _ _, inf n2 => finite (xor n1 n2) 0 (-149)
  | inf n1, finite n2 _ _ => inf (xor n1 n2)
  | inf _, inf _ => nan
  | nan, _ => nan
  | _, nan => nan

/-- The function `std::round` on `float`: the nearest integral value, halfway
cases away from zero. -/
def round : float → float
  | finite neg m e =>
    if 0 ≤ e then finite neg m e
    else
      let d : Nat := 2 ^ (-e).toNat
      let q : Nat := m / d
      let r : Nat := m % d
      round_ratio neg (if d ≤ 2 * r then q + 1 else q) 1
  | x => x

/-- The integer part of a finite float (truncation toward zero); `none` for
an infinity or a NaN. -/
def trunc : float → Option Int
  | finite neg m e =>
    let t : Nat := if 0 ≤ e then m * 2 ^ e.toNat else m / 2 ^ (-e).toNat
    some (if neg then -(t : Int) else (t : Int))
  | _ => none

/-- Conversion `float → int`: truncation toward zero. A value that does not
fit is undefined behaviour in C++; the embedding returns what the x86
conversion instruction returns, `INT_MIN`. -/
def to_int : float → Int
  | x =>
    match trunc x with
    | some t => if -(2 ^ 31) ≤ t ∧ t < 2 ^ 31 then t else -(2 ^ 31)
    | none => -(2 ^ 31)

/-- Conversion `float → unsigned` (`static_cast<unsigned>`): truncation
toward zero. A value outside `[0, 2^32)` is undefined behaviour in C++; the
embedding returns what x86-64 compilers produce, the low 32 bits of the 64-bit
conversion. -/
def to_unsigned : float → Int
  | x =>
    match trunc x with
    | some t => if -(2 ^ 63) ≤ t ∧ t < 2 ^ 63 then t % 2 ^ 32 else 0
    | none => 0

/-- The comparison `0 < x`. -/
def is_positive : float → Bool
  | finite neg m _ => !neg && decide (0 < m)
  | inf neg => !neg
  | nan => false

end float

/-! ## The widget -/

/-- A pixel coordinate. -/
structure point where
  x : Int
  y : Int
deriving DecidableEq

/-- Possible states of the widget. -/
inductive state_t where
  | ENABLED
  | DISABLED
  | PRESSED
  | FOCUSED
deriving DecidableEq

/-- The scroll 'step size'. -/
inductive scroll_mode where
  | BEGIN
  | ITEM_BACKWARDS
  | HALF_JUMP_BACKWARDS
  | JUMP_BACKWARDS
  | END
  | ITEM_FORWARD
  | HALF_JUMP_FORWARD
  | JUMP_FORWARD
deriving DecidableEq

/-- The ways an operation aborts. -/
inductive failure where
  | assertion
  | division_by_zero
deriving DecidableEq

/-- The data members of `slider_base`, followed by the record of its effects
on the collaborators. -/
structure slider_base where
  state_ : state_t
  item_count_ : Int
  item_position_ : Int
  pixels_per_step_ : float
  drag_initial_mouse_ : point
  drag_initial_position_ : Int
  positioner_offset_ : Int
  positioner_length_ : Int
  /-- The number of `NOTIFY_MODIFIED` events fired so far. -/
  notify_modified : Nat
  /-- The arguments of the calls of `window::mouse_capture`, latest first. -/
  mouse_capture : List Bool
  /-- The canvas variable `positioner_offset`. -/
  canvas_positioner_offset : Int
  /-- The canvas variable `positioner_length`. -/
  canvas_positioner_length : Int
  /-- The dirty flag of the widget. -/
  is_dirty : Bool
deriving DecidableEq

/-- The virtual functions the orientation subclass and the widget base supply.
The results of `get_length`, `offset_before` and `offset_after` are `unsigned`
and are read through `to_unsigned`. -/
structure hooks where
  get_length : slider_base → Int
  offset_before : slider_base → Int
  offset_after : slider_base → Int
  on_positioner : slider_base → point → Bool
  on_bar : slider_base → point → Int
  in_orthogonal_range : slider_base → point → Bool
  get_length_difference : slider_base → point → point → Int
  positioner_length : slider_base → Int
  jump_size : slider_base → Int
  get_x : Int
  get_y : Int
  /-- Whether `get_window()` is non-null. -/
  get_window : Bool

/-- The widget as the constructor leaves it. -/
def slider_base.init : slider_base where
  state_ := .ENABLED
  item_count_ := 0
  item_position_ := 0
  pixels_per_step_ := float.zero
  drag_initial_mouse_ := ⟨0, 0⟩
  drag_initial_position_ := 0
  positioner_offset_ := 0
  positioner_length_ := 0
  notify_modified := 0
  mouse_capture := []
  canvas_positioner_offset := 0
  canvas_positioner_length := 0
  is_dirty := false

/-- Modelled from the spec: `utils::clamp`, which is not part of the sources
at hand. The spec has `set_position` clamp `p` to `[0, item_count-1]`, or to 0
if `item_count = 0`: the value is cut at the upper bound first and at the
lower bound last. -/
def clamp (value lo hi : Int) : Int := max (min value hi) lo

/-- The call `fire(event::NOTIFY_MODIFIED, *this, nullptr)`. -/
def fire_notify_modified (s : slider_base) : slider_base :=
  { s with notify_modified := s.notify_modified + 1 }

/-- The getter `get_active`. -/
def get_active (s : slider_base) : Bool := decide (s.state_ ≠ .DISABLED)

/-- The getter `slider_get_item_count`, of type `unsigned`. -/
def slider_get_item_count (s : slider_base) : Int := to_unsigned s.item_count_

/-- The getter `get_slider_position`, of type `unsigned`. -/
def get_slider_position (s : slider_base) : Int := to_unsigned s.item_position_

/-- The getter `get_positioner_offset`, of type `unsigned`. -/
def get_positioner_offset (s : slider_base) : Int := to_unsigned s.positioner_offset_

/-- The method `at_begin`. -/
def at_begin (s : slider_base) : Bool := decide (s.item_position_ = 0)

/-- The method `at_end`. -/
def at_end (s : slider_base) : Bool := decide (s.item_position_ + 1 ≥ s.item_count_)

/-- The method `update_canvas`. -/
def update_canvas (s : slider_base) : slider_base :=
  { s with
    canvas_positioner_offset := s.positioner_offset_
    canvas_positioner_length := s.positioner_length_
    is_dirty := true }

/-- The method `set_state`. -/
def set_state (s : slider_base) (state : state_t) : slider_base :=
  if state ≠ s.state_ then { s with state_ := state, is_dirty := true } else s

/-- The method `set_active`. -/
def set_active (s : slider_base) (active : Bool) : slider_base :=
  if get_active s ≠ active then set_state s (if active then .ENABLED else .DISABLED) else s

/-- The method `set_slider_position`. -/
def set_slider_position (s : slider_base) (item_position : Int) : slider_base :=
  let s1 := { s with item_position_ := clamp item_position 0 (s.item_count_ - 1) }
  let s2 := { s1 with
    positioner_offset_ :=
      to_int (float.to_unsigned (float.mul (float.of_int s1.item_position_) s1.pixels_per_step_)) }
  update_canvas s2

/-- The method `scroll`. -/
def scroll (h : hooks) (s : slider_base) (mode : scroll_mode) : slider_base :=
  let s1 :=
    match mode with
    | .BEGIN => set_slider_position s 0
    | .ITEM_BACKWARDS => set_slider_position s (s.item_position_ - 1)
    | .HALF_JUMP_BACKWARDS => set_slider_position s (s.item_position_ - (h.jump_size s).tdiv 2)
    | .JUMP_BACKWARDS => set_slider_position s (s.item_position_ - h.jump_size s)
    | .END => set_slider_position s (s.item_count_ - 1)
    | .ITEM_FORWARD => set_slider_position s (s.item_position_ + 1)
    | .HALF_JUMP_FORWARD => set_slider_position s (s.item_position_ + (h.jump_size s).tdiv 2)
    | .JUMP_FORWARD => set_slider_position s (s.item_position_ + h.jump_size s)
  fire_notify_modified s1

/-- The method `available_length`. -/
def available_length (h : hooks) (s : slider_base) : Int :=
  to_int (to_unsigned (h.get_length s) - to_unsigned (h.offset_before s)
    - to_unsigned (h.offset_after s))

/-- The method `recalculate_positioner`. -/
def recalculate_positioner (h : hooks) (s : slider_base) : slider_base :=
  { s with positioner_length_ := h.positioner_length s }

/-- The method `recalculate`. -/
def recalculate (h : hooks) (s : slider_base) : Except failure slider_base :=
  if to_unsigned (h.get_length s) = 0 then .ok s
  else
    let available_length : Int :=
      to_int (to_unsigned (h.get_length s) - to_unsigned (h.offset_before s)
        - to_unsigned (h.offset_after s))
    if ¬ 0 < available_length then .error .assertion
    else if s.item_count_ ≤ 1 then
      let s1 := { s with positioner_offset_ := to_int (to_unsigned (h.offset_before s)) }
      let s2 := recalculate_positioner h s1
      let s3 := { s2 with item_position_ := 0 }
      .ok (update_canvas s3)
    else
      let steps : Int := to_unsigned (s.item_count_ - 2)
      let s1 := recalculate_positioner h s
      let s2 := { s1 with
        pixels_per_step_ :=
          float.div (float.of_int (available_length - s1.positioner_length_))
            (float.of_int (to_unsigned (steps + 1))) }
      .ok (set_slider_position s2 s2.item_position_)

/-- The method `slider_set_item_count`; its parameter is `unsigned`. -/
def slider_set_item_count (h : hooks) (s : slider_base) (item_count : Int) :
    Except failure slider_base :=
  recalculate h { s with item_count_ := to_int (to_unsigned item_count) }

/-- The method `place`, after the inherited placement, which is what changes
the hooks. -/
def place (h : hooks) (s : slider_base) : Except failure slider_base :=
  recalculate h s

/-- The method `move_positioner`: the branch under `if (true)`. -/
def move_positioner (h : hooks) (s : slider_base) (distance : Int) :
    Except failure slider_base :=
  let steps_diff : Int :=
    float.to_int (float.round (float.div (float.of_int distance) s.pixels_per_step_))
  let new_position : Int := s.drag_initial_position_ + steps_diff
  if new_position = 0 then .error .division_by_zero
  else
    let new_positioner_offset : Int :=
      to_int (to_unsigned (h.offset_before s)
        + ((available_length h s - s.positioner_length_) * s.item_count_).tdiv new_position)
    let s1 := { s with positioner_offset_ := new_positioner_offset }
    let s2 :=
      if new_position ≠ s1.item_position_ then
        fire_notify_modified { s1 with item_position_ := new_position }
      else s1
    .ok (update_canvas s2)

/-! ## Signal handlers

A handler returns the widget together with the flags it received by
reference: `handled`, and `halt` where the handler has it. -/

/-- The handler `signal_handler_mouse_motion`. -/
def signal_handler_mouse_motion (h : hooks) (s : slider_base) (handled halt : Bool)
    (coordinate : point) : Except failure (slider_base × Bool × Bool) :=
  let mouse : point := ⟨coordinate.x - h.get_x, coordinate.y - h.get_y⟩
  match s.state_ with
  | .ENABLED =>
    .ok (if h.on_positioner s mouse then set_state s .FOCUSED else s, true, halt)
  | .PRESSED =>
    if h.in_orthogonal_range s mouse then
      match move_positioner h s (h.get_length_difference s s.drag_initial_mouse_ mouse) with
      | .ok s1 => .ok (s1, true, halt)
      | .error e => .error e
    else .ok (s, true, halt)
  | .FOCUSED =>
    .ok (if ¬ h.on_positioner s mouse then set_state s .ENABLED else s, true, halt)
  | .DISABLED => .ok (s, true, true)

/-- The handler `signal_handler_mouse_enter`; `mouse_position` is the value of
`get_mouse_position()`. -/
def signal_handler_mouse_enter (h : hooks) (s : slider_base) (handled halt : Bool)
    (mouse_position : point) : Except failure (slider_base × Bool × Bool) :=
  signal_handler_mouse_motion h s handled halt mouse_position

/-- The handler `signal_handler_mouse_leave`. -/
def signal_handler_mouse_leave (s : slider_base) (handled : Bool) : slider_base × Bool :=
  (if s.state_ = .FOCUSED then set_state s .ENABLED else s, true)

/-- The handler `signal_handler_left_button_down`; `mouse_position` is the
value of `get_mouse_position()`. -/
def signal_handler_left_button_down (h : hooks) (s : slider_base) (handled : Bool)
    (mouse_position : point) : Except failure (slider_base × Bool) :=
  let mouse : point := ⟨mouse_position.x - h.get_x, mouse_position.y - h.get_y⟩
  if h.on_positioner s mouse ∧ ¬ h.get_window then .error .assertion
  else
    let s1 :=
      if h.on_positioner s mouse then
        set_state
          { s with
            drag_initial_mouse_ := mouse
            drag_initial_position_ := s.item_position_
            mouse_capture := true :: s.mouse_capture }
          .PRESSED
      else s
    let bar : Int := h.on_bar s1 mouse
    if bar = -1 then
      .ok (fire_notify_modified (scroll h s1 .HALF_JUMP_BACKWARDS), true)
    else if bar = 1 then
      .ok (fire_notify_modified (scroll h s1 .HALF_JUMP_FORWARD), true)
    else if bar = 0 then .ok (s1, true)
    else .error .assertion

/-- The handler `signal_handler_left_button_up`; `mouse_position` is the value
of `get_mouse_position()`. -/
def signal_handler_left_button_up (h : hooks) (s : slider_base) (handled : Bool)
    (mouse_position : point) : Except failure (slider_base × Bool) :=
  let mouse : point := ⟨mouse_position.x - h.get_x, mouse_position.y - h.get_y⟩
  if s.state_ ≠ .PRESSED then .ok (s, handled)
  else if ¬ h.get_window then .error .assertion
  else
    let s1 := { s with mouse_capture := false :: s.mouse_capture }
    let s2 := if h.on_positioner s1 mouse then set_state s1 .FOCUSED else set_state s1 .ENABLED
    .ok ({ s2 with drag_initial_mouse_ := ⟨0, 0⟩, drag_initial_position_ := 0 }, true)

/-! ## Statements in the words of the specification -/

/-- The target position of a scroll request as the specification words it
(§4.3), before clamping: `current` is the position held, `jump` the value of
`jump_size()`. -/
def spec_scroll_target (item_count current jump : Int) : scroll_mode → Int
  | .BEGIN => 0
  | .END => item_count - 1
  | .ITEM_BACKWARDS => current - 1
  | .ITEM_FORWARD => current + 1
  | .HALF_JUMP_BACKWARDS => current - jump.tdiv 2
  | .HALF_JUMP_FORWARD => current + jump.tdiv 2
  | .JUMP_BACKWARDS => current - jump
  | .JUMP_FORWARD => current + jump

/-- The Range invariant of the specification (§3) for an item count `n`. -/
def range_invariant (n position : Int) : Prop :=
  (0 < n → 0 ≤ position ∧ position < n) ∧ (n = 0 → position = 0)

/-! ## Concrete widgets

A horizontal bar: a track of 120 pixels without insets, a positioner of 30
pixels and 4 visible items. With 10 items this gives 10 pixels per step. -/

deriving instance DecidableEq for Except

/-- The hooks of the horizontal bar. -/
def track_hooks : hooks where
  get_length := fun _ => 120
  offset_before := fun _ => 0
  offset_after := fun _ => 0
  on_positioner := fun s p =>
    decide (s.positioner_offset_ ≤ p.x ∧ p.x < s.positioner_offset_ + s.positioner_length_)
  on_bar := fun s p =>
    if p.x < s.positioner_offset_ then -1
    else if s.positioner_offset_ + s.positioner_length_ ≤ p.x then 1
    else 0
  in_orthogonal_range := fun _ _ => true
  get_length_difference := fun _ original current => current.x - original.x
  positioner_length := fun _ => 30
  jump_size := fun _ => 4
  get_x := 0
  get_y := 0
  get_window := true

/-- The hooks of the same bar before it has been placed: its length is 0. -/
def unplaced_hooks : hooks := { track_hooks with get_length := fun _ => 0 }

/-- The bar with 10 items at position `position`, placed, pointer elsewhere. -/
def placed_slider (position : Int) : slider_base where
  state_ := .ENABLED
  item_count_ := 10
  item_position_ := position
  pixels_per_step_ := float.of_int 10
  drag_initial_mouse_ := ⟨0, 0⟩
  drag_initial_position_ := 0
  positioner_offset_ := 10 * position
  positioner_length_ := 30
  notify_modified := 0
  mouse_capture := []
  canvas_positioner_offset := 10 * position
  canvas_positioner_length := 30
  is_dirty := true

/-- The bar of `placed_slider` after a left button down at `x = 10 * position
+ 10`, a point of the positioner. -/
def pressed_slider (position : Int) : slider_base :=
  { placed_slider position with
    state_ := .PRESSED
    drag_initial_mouse_ := ⟨10 * position + 10, 0⟩
    drag_initial_position_ := position
    mouse_capture := [true] }

/-- An unplaced bar holding 10 items at position 9. -/
def unplaced_slider : slider_base :=
  { slider_base.init with item_count_ := 10, item_position_ := 9, is_dirty := true }

/-- The same bar in a window that leaves it 19 pixels of travel: with 11 items
a step is the float nearest to 1.9 pixels. -/
def narrow_hooks : hooks := { track_hooks with get_length := fun _ => 49 }

/-- The same bar with a leading inset of 5 pixels. -/
def inset_hooks : hooks :=
  { track_hooks with get_length := fun _ => 125, offset_before := fun _ => 5 }

/-- The same bar in a window that leaves it a single pixel of travel. -/
def cramped_hooks : hooks := { track_hooks with get_length := fun _ => 31 }

/-- The same bar in a window that leaves it 6 pixels of travel: with 10 items a
step is the float nearest to 2/3 of a pixel. -/
def snug_hooks : hooks := { track_hooks with get_length := fun _ => 36 }

/-- The same bar in a window that leaves it 5 pixels of travel: with 10 items a
step is the float nearest to 5/9 of a pixel. -/
def short_hooks : hooks := { track_hooks with get_length := fun _ => 35 }

/-! ## Notions the statements use -/

/-- The rational number a finite float denotes; 0 for an infinity or a NaN. -/
def float.to_rat : float → ℚ
  | .finite neg m e =>
    let v : ℚ :=
      if 0 ≤ e then ((m * 2 ^ e.toNat : Nat) : ℚ) else (m : ℚ) / ((2 ^ (-e).toNat : Nat) : ℚ)
    if neg then -v else v
  | _ => 0

/-- The comparison `0 ≤ x`; it holds for both zeros. -/
def float.is_nonneg : float → Bool
  | .finite neg m _ => !neg || decide (m = 0)
  | .inf neg => !neg
  | .nan => false

/-- What round-to-nearest gives for a positive exact value `x` in the normal
range, said of the finite float `m * 2^e` it produces: the mantissa has 24
bits; the relative error is at most `2^-24`; the result is on the same side as
`x` of every value `n * 2^j` with a 24-bit mantissa `n` (rounding is monotone
and exact on such values); and the absolute error is at most half a unit in
the last place of the binade `[2^E, 2^(E+1))`, for every `E` with
`x < 2^(E+1)`. -/
def float.rounds (m : Nat) (e : Int) (x : ℚ) : Prop :=
  m < 2 ^ 24 ∧
    |(m : ℚ) * (2 : ℚ) ^ e - x| ≤ x * (2 : ℚ) ^ (-24 : Int) ∧
    (∀ (n : Nat) (j : Int), n < 2 ^ 24 → x ≤ (n : ℚ) * (2 : ℚ) ^ j →
      (m : ℚ) * (2 : ℚ) ^ e ≤ (n : ℚ) * (2 : ℚ) ^ j) ∧
    (∀ (n : Nat) (j : Int), n < 2 ^ 24 → (n : ℚ) * (2 : ℚ) ^ j ≤ x →
      (n : ℚ) * (2 : ℚ) ^ j ≤ (m : ℚ) * (2 : ℚ) ^ e) ∧
    (∀ E : Int, x < (2 : ℚ) ^ (E + 1) → |(m : ℚ) * (2 : ℚ) ^ e - x| ≤ (2 : ℚ) ^ (E - 24))

/-- Whether the window holds the pointer captured for the widget: the latest
call of `mouse_capture` had the argument `true`. -/
def capture_held (s : slider_base) : Bool := s.mouse_capture.head? == some true

/-- The inert value of the drag session. -/
def drag_session_inert (s : slider_base) : Prop :=
  s.drag_initial_mouse_ = ⟨0, 0⟩ ∧ s.drag_initial_position_ = 0

/-- The position recovered from the pixel offset: `positioner_offset_` divided
by `pixels_per_step_` and snapped with `std::round`, the way `move_positioner`
snaps a distance. -/
def position_of_offset (s : slider_base) : Int :=
  float.to_int (float.round (float.div (float.of_int s.positioner_offset_) s.pixels_per_step_))

/-- A run of pointer-motion events: `signal_handler_mouse_motion` applied to
each coordinate in turn; it aborts where a handler aborts. -/
def motion_events (h : hooks) : slider_base → List point → Except failure slider_base
  | s, [] => .ok s
  | s, c :: cs =>
    match signal_handler_mouse_motion h s false false c with
    | .ok r => motion_events h r.1 cs
    | .error e => .error e

/-- The number of events of such a run that change `item_position_`. -/
def position_changes (h : hooks) : slider_base → List point → Nat
  | _, [] => 0
  | s, c :: cs =>
    match signal_handler_mouse_motion h s false false c with
    | .ok r => (if r.1.item_position_ ≠ s.item_position_ then 1 else 0) + position_changes h r.1 cs
    | .error _ => 0

/-! ## Reachability of the concrete widgets -/

/-- The widget `placed_slider p` is what `slider_set_item_count 10` and
`set_slider_position p` build from the constructed widget, here for the
positions 0 and 5. -/
theorem placed_slider_reachable :
    (slider_set_item_count track_hooks slider_base.init 10).map
        (fun s => set_slider_position s 5) = .ok (placed_slider 5) ∧
      (slider_set_item_count track_hooks slider_base.init 10).map
        (fun s => set_slider_position s 0) = .ok (placed_slider 0) := by
  decide

/-- The widget `pressed_slider p` is `placed_slider p` after a left button down
on the positioner, here for the positions 0 and 5. -/
theorem pressed_slider_reachable :
    signal_handler_left_button_down track_hooks (placed_slider 5) false ⟨60, 0⟩
        = .ok (pressed_slider 5, true) ∧
      signal_handler_left_button_down track_hooks (placed_slider 0) false ⟨10, 0⟩
        = .ok (pressed_slider 0, true) := by
  decide

/-- The widget `unplaced_slider` is reached from the constructed widget before
any layout. -/
theorem unplaced_slider_reachable :
    (slider_set_item_count unplaced_hooks slider_base.init 10).map
        (fun s => set_slider_position s 9) = .ok unplaced_slider := by
  decide

/-! ## Basic facts -/

/-- Reading an `unsigned` value through `int` and back changes nothing. -/
theorem to_int_to_unsigned (z : Int) : to_unsigned (to_int (to_unsigned z)) = to_unsigned z := by
  unfold to_unsigned to_int
  omega

/-- The conversions are the identity on the range of `int`. -/
theorem to_int_of_range (z : Int) (h1 : -(2 ^ 31) ≤ z) (h2 : z < 2 ^ 31) :
    to_int (to_unsigned z) = z := by
  unfold to_unsigned to_int
  omega

/-- A clamp with lower bound 0 is not negative and at most `max hi 0`. -/
theorem clamp_bounds (v hi : Int) : 0 ≤ clamp v 0 hi ∧ clamp v 0 hi ≤ max hi 0 := by
  unfold clamp
  omega

/-- The position `set_slider_position` stores. -/
theorem set_slider_position_item_position (s : slider_base) (p : Int) :
    (set_slider_position s p).item_position_ = clamp p 0 (s.item_count_ - 1) := rfl

/-- The setter keeps the item count. -/
theorem set_slider_position_item_count (s : slider_base) (p : Int) :
    (set_slider_position s p).item_count_ = s.item_count_ := rfl

/-- The setter fires no notification. -/
theorem set_slider_position_notify (s : slider_base) (p : Int) :
    (set_slider_position s p).notify_modified = s.notify_modified := rfl

/-- The setter keeps the interaction state. -/
theorem set_slider_position_state (s : slider_base) (p : Int) :
    (set_slider_position s p).state_ = s.state_ := rfl

/-! ## The position setter and the scroll API -/

/-- C1: for every widget and every requested position `p`, the position
stored by `set_slider_position p` lies in `[0, max (item_count - 1) 0]`, and it
is 0 when the item count is 0. No assumption on the widget is needed. -/
theorem set_slider_position_in_range (s : slider_base) (p : Int) :
    0 ≤ (set_slider_position s p).item_position_ ∧
      (set_slider_position s p).item_position_ ≤ max (s.item_count_ - 1) 0 ∧
      (s.item_count_ = 0 → (set_slider_position s p).item_position_ = 0) := by
  rw [set_slider_position_item_position]
  unfold clamp
  omega

/-- C2: with at least one item, a position inside the range and a jump size
that is not negative, `scroll mode` leaves the position at the target the
specification names for `mode`, clamped to `[0, item_count - 1]`. -/
theorem scroll_item_position (h : hooks) (s : slider_base) (mode : scroll_mode)
    (hcount : 1 ≤ s.item_count_)
    (hpos : 0 ≤ s.item_position_ ∧ s.item_position_ ≤ s.item_count_ - 1)
    (hjump : 0 ≤ h.jump_size s) :
    (scroll h s mode).item_position_ =
      max 0 (min (s.item_count_ - 1)
        (spec_scroll_target s.item_count_ s.item_position_ (h.jump_size s) mode)) := by
  cases mode <;>
    simp only [scroll, fire_notify_modified, set_slider_position_item_position,
      spec_scroll_target, clamp] <;>
    omega

/-- Witness of C2 on the values the specification lists: 10 items, jump size
4, position 5. -/
theorem scroll_item_position_witness :
    (1 ≤ (placed_slider 5).item_count_ ∧ 0 ≤ track_hooks.jump_size (placed_slider 5)) ∧
      (scroll track_hooks (placed_slider 5) .HALF_JUMP_FORWARD).item_position_ = 7 ∧
      (scroll track_hooks (placed_slider 5) .JUMP_BACKWARDS).item_position_ = 1 ∧
      (scroll track_hooks (placed_slider 5) .END).item_position_ = 9 ∧
      (scroll track_hooks (placed_slider 5) .BEGIN).item_position_ = 0 :=
  ⟨by decide,
    (scroll_item_position track_hooks (placed_slider 5) .HALF_JUMP_FORWARD
      (by decide) (by decide) (by decide)).trans (by decide),
    (scroll_item_position track_hooks (placed_slider 5) .JUMP_BACKWARDS
      (by decide) (by decide) (by decide)).trans (by decide),
    (scroll_item_position track_hooks (placed_slider 5) .END
      (by decide) (by decide) (by decide)).trans (by decide),
    (scroll_item_position track_hooks (placed_slider 5) .BEGIN
      (by decide) (by decide) (by decide)).trans (by decide)⟩

/-- C3: one call of `scroll` fires `NOTIFY_MODIFIED` exactly once, for every
widget and each of the eight modes, whether or not the position changes. -/
theorem scroll_fires_once (h : hooks) (s : slider_base) (mode : scroll_mode) :
    (scroll h s mode).notify_modified = s.notify_modified + 1 := by
  cases mode <;> rfl

/-! ## Dragging -/

/-- The drag path when the snapped position is not 0: the handler returns, the
position is `drag_initial_position_` plus the rounded number of steps, without
any clamping, and `NOTIFY_MODIFIED` fires once if that position is new and
not at all otherwise. -/
theorem move_positioner_ok (h : hooks) (s : slider_base) (distance : Int)
    (hne : s.drag_initial_position_ +
      float.to_int (float.round (float.div (float.of_int distance) s.pixels_per_step_)) ≠ 0) :
    ∃ r, move_positioner h s distance = .ok r ∧
      r.item_position_ = s.drag_initial_position_ +
        float.to_int (float.round (float.div (float.of_int distance) s.pixels_per_step_)) ∧
      r.notify_modified =
        (if r.item_position_ = s.item_position_ then s.notify_modified
          else s.notify_modified + 1) ∧
      r.state_ = s.state_ ∧ r.item_count_ = s.item_count_ := by
  unfold move_positioner
  simp only [hne, if_false]
  by_cases hp : s.drag_initial_position_ +
      float.to_int (float.round (float.div (float.of_int distance) s.pixels_per_step_))
        = s.item_position_
  · refine ⟨_, rfl, ?_⟩
    simp [hp, update_canvas]
  · refine ⟨_, rfl, ?_⟩
    simp [hp, update_canvas, fire_notify_modified]

/-- The drag path when the snapped position is 0: the division by
`new_position` aborts the handler. -/
theorem move_positioner_zero (h : hooks) (s : slider_base) (distance : Int)
    (hz : s.drag_initial_position_ +
      float.to_int (float.round (float.div (float.of_int distance) s.pixels_per_step_)) = 0) :
    move_positioner h s distance = .error .division_by_zero := by
  unfold move_positioner
  simp only [hz, if_true]

/-- C4: with 10 pixels per step and a drag that started at position 5, a
pointer motion of +24 pixels snaps to 7 and one of -15 pixels to 3, as the
specification lists; a motion of -50 pixels snaps to 0, a position of the
range, and there the handler aborts on the division by `new_position`. -/
theorem drag_snap_to_start_aborts :
    (signal_handler_mouse_motion track_hooks (pressed_slider 5) false false ⟨84, 0⟩).map
        (fun r => r.1.item_position_) = .ok 7 ∧
      (signal_handler_mouse_motion track_hooks (pressed_slider 5) false false ⟨45, 0⟩).map
        (fun r => r.1.item_position_) = .ok 3 ∧
      signal_handler_mouse_motion track_hooks (pressed_slider 5) false false ⟨10, 0⟩
        = .error .division_by_zero := by
  decide

/-- C5: the position a drag commits is not clamped. With 10 items, a motion of
+1000 pixels commits position 105 and a motion of -1000 pixels commits -95. -/
theorem drag_position_not_clamped :
    (signal_handler_mouse_motion track_hooks (pressed_slider 5) false false ⟨1060, 0⟩).map
        (fun r => (r.1.item_count_, r.1.item_position_)) = .ok (10, 105) ∧
      (signal_handler_mouse_motion track_hooks (pressed_slider 5) false false ⟨-940, 0⟩).map
        (fun r => (r.1.item_count_, r.1.item_position_)) = .ok (10, -95) := by
  decide

/-- C6: a motion that snaps to a new position fires `NOTIFY_MODIFIED` once and
a following motion that snaps to the same position fires nothing, as long as
the position is not 0. A drag that holds position 0 aborts on the division by
`new_position` at its first motion event, also when the pointer has not moved
along the bar, and so does a drag from position 5 to position 0. -/
theorem drag_at_start_aborts :
    ((signal_handler_mouse_motion track_hooks (pressed_slider 5) false false ⟨84, 0⟩).bind
        (fun r => signal_handler_mouse_motion track_hooks r.1 false false ⟨83, 0⟩)).map
        (fun r => (r.1.item_position_, r.1.notify_modified)) = .ok (7, 1) ∧
      signal_handler_mouse_motion track_hooks (pressed_slider 0) false false ⟨10, 2⟩
        = .error .division_by_zero ∧
      signal_handler_mouse_motion track_hooks (pressed_slider 5) false false ⟨11, 0⟩
        = .error .division_by_zero := by
  decide

/-! ## Left button down on the bar -/

/-- C7: a left button down on the bar is claimed to fire `NOTIFY_MODIFIED`
exactly once for the scroll it commits. On `placed_slider 5` a left button down
at `x = 100`, on the bar after the positioner, scrolls to position 7 and leaves
the state `ENABLED`, as claimed, but `NOTIFY_MODIFIED` has fired twice; at
`x = 10`, on the bar before the positioner, it scrolls to position 3, again
with two notifications. The same `scroll` called directly reaches position 7
with one notification. -/
theorem left_button_down_on_bar_fires_twice :
    (signal_handler_left_button_down track_hooks (placed_slider 5) false ⟨100, 0⟩).map
        (fun r => (r.1.item_position_, r.1.state_, r.1.notify_modified))
      = .ok (7, .ENABLED, (placed_slider 5).notify_modified + 2) ∧
      (signal_handler_left_button_down track_hooks (placed_slider 5) false ⟨10, 0⟩).map
        (fun r => (r.1.item_position_, r.1.state_, r.1.notify_modified))
      = .ok (3, .ENABLED, (placed_slider 5).notify_modified + 2) ∧
      ((scroll track_hooks (placed_slider 5) .HALF_JUMP_FORWARD).item_position_,
        (scroll track_hooks (placed_slider 5) .HALF_JUMP_FORWARD).notify_modified)
      = (7, (placed_slider 5).notify_modified + 1) ∧
      (placed_slider 5).notify_modified + 2 ≠ (placed_slider 5).notify_modified + 1 := by
  decide

/-- The bar branches of `signal_handler_left_button_down` in general: when the
pointer is not on the positioner and is on the bar before (resp. after) it, the
handler returns the widget that `scroll HALF_JUMP_BACKWARDS` (resp.
`HALF_JUMP_FORWARD`) produces, with the interaction state unchanged, after one
more `fire`: the code sends two notifications for the one scroll, the one
inside `scroll` and the one of the handler, where the specification asks for
one. -/
theorem left_button_down_on_bar (h : hooks) (s : slider_base) (handled : Bool)
    (mouse_position : point) (mode : scroll_mode)
    (hpos : h.on_positioner s ⟨mouse_position.x - h.get_x, mouse_position.y - h.get_y⟩ = false)
    (hbar :
      (h.on_bar s ⟨mouse_position.x - h.get_x, mouse_position.y - h.get_y⟩ = -1 ∧
          mode = .HALF_JUMP_BACKWARDS) ∨
        (h.on_bar s ⟨mouse_position.x - h.get_x, mouse_position.y - h.get_y⟩ = 1 ∧
          mode = .HALF_JUMP_FORWARD)) :
    ∃ r, signal_handler_left_button_down h s handled mouse_position = .ok (r, true) ∧
      r = fire_notify_modified (scroll h s mode) ∧
      r.item_position_ = (scroll h s mode).item_position_ ∧
      r.state_ = s.state_ ∧
      r.notify_modified = s.notify_modified + 2 := by
  refine ⟨fire_notify_modified (scroll h s mode), ?_, rfl, rfl, ?_, ?_⟩
  · unfold signal_handler_left_button_down
    rcases hbar with ⟨hb, rfl⟩ | ⟨hb, rfl⟩ <;> simp [hpos, hb]
  · rcases hbar with ⟨_, rfl⟩ | ⟨_, rfl⟩ <;> rfl
  · rcases hbar with ⟨_, rfl⟩ | ⟨_, rfl⟩ <;> rfl

/-- The bar branch after the positioner on `placed_slider 5`, pointer at
`x = 100`. -/
theorem left_button_down_on_bar_witness :
    track_hooks.on_positioner (placed_slider 5) ⟨100 - track_hooks.get_x, 0 - track_hooks.get_y⟩
        = false ∧
      ∃ r, signal_handler_left_button_down track_hooks (placed_slider 5) false ⟨100, 0⟩
          = .ok (r, true) ∧
        r = fire_notify_modified (scroll track_hooks (placed_slider 5) .HALF_JUMP_FORWARD) ∧
        r.item_position_
          = (scroll track_hooks (placed_slider 5) .HALF_JUMP_FORWARD).item_position_ ∧
        r.state_ = (placed_slider 5).state_ ∧
        r.notify_modified = (placed_slider 5).notify_modified + 2 :=
  ⟨by decide,
    left_button_down_on_bar track_hooks (placed_slider 5) false ⟨100, 0⟩ .HALF_JUMP_FORWARD
      (by decide) (Or.inr ⟨by decide, rfl⟩)⟩

/-! ## Recalculation -/

/-- Counterexample to C8 as stated: on a bar that has not been placed (track
length 0) and holds position 9 of 10 items, `slider_set_item_count 3` stores
the count 3 and leaves the position at 9, outside the range. -/
theorem slider_set_item_count_unplaced_keeps_position :
    (slider_set_item_count unplaced_hooks unplaced_slider 3).map
        (fun r => (slider_get_item_count r, r.item_position_)) = .ok (3, 9) ∧
      ¬ range_invariant 3 9 := by
  refine ⟨by decide, ?_⟩
  unfold range_invariant
  omega

/-- C8, amended: for every widget and every `unsigned` count `n`, if the track
length is not zero and the available length is positive then
`slider_set_item_count n` returns, the item count is `n` and the Range
invariant holds; if the track length is zero it returns the widget with the
new count only, the position being what it was. -/
theorem slider_set_item_count_range (h : hooks) (s : slider_base) (n : Int)
    (hn : 0 ≤ n ∧ n < 2 ^ 32) :
    (to_unsigned (h.get_length { s with item_count_ := to_int (to_unsigned n) }) ≠ 0 →
      0 < available_length h { s with item_count_ := to_int (to_unsigned n) } →
      ∃ r, slider_set_item_count h s n = .ok r ∧ slider_get_item_count r = n ∧
        range_invariant n r.item_position_) ∧
    (to_unsigned (h.get_length { s with item_count_ := to_int (to_unsigned n) }) = 0 →
      slider_set_item_count h s n = .ok { s with item_count_ := to_int (to_unsigned n) }) := by
  constructor
  · intro hlen havail
    unfold available_length at havail
    unfold slider_set_item_count recalculate
    simp only [hlen, if_false, havail, not_true_eq_false]
    by_cases hc : to_int (to_unsigned n) ≤ 1
    · refine ⟨_, by simp only [hc, if_true]; rfl, ?_, ?_⟩
      · show to_unsigned (to_int (to_unsigned n)) = n
        unfold to_unsigned to_int
        omega
      · show range_invariant n 0
        unfold range_invariant
        omega
    · refine ⟨_, by simp only [hc, if_false]; rfl, ?_, ?_⟩
      · show to_unsigned (to_int (to_unsigned n)) = n
        unfold to_unsigned to_int
        omega
      · show range_invariant n (clamp s.item_position_ 0 (to_int (to_unsigned n) - 1))
        unfold range_invariant clamp
        unfold to_unsigned to_int at hc ⊢
        omega
  · intro hlen
    unfold slider_set_item_count recalculate
    simp only [hlen, if_true]

/-- Witness of the amended C8: on the placed bar at position 5,
`slider_set_item_count 3` gives the count 3 and a position in `[0, 3)`. -/
theorem slider_set_item_count_range_witness :
    ((0 : Int) ≤ 3 ∧ (3 : Int) < 2 ^ 32) ∧
      ∃ r, slider_set_item_count track_hooks (placed_slider 5) 3 = .ok r ∧
        slider_get_item_count r = 3 ∧ range_invariant 3 r.item_position_ :=
  ⟨by decide,
    (slider_set_item_count_range track_hooks (placed_slider 5) 3 (by decide)).1
      (by decide) (by decide)⟩

/-- C9: with 0 or 1 items, a track length that is not zero and a positive
available length, `recalculate` returns; the positioner offset is
`offset_before()`, the position is 0, the positioner length is the value of
`positioner_length()`, and `pixels_per_step_` is left as it was: no quotient
is computed. -/
theorem recalculate_all_visible (h : hooks) (s : slider_base)
    (hcount : s.item_count_ = 0 ∨ s.item_count_ = 1)
    (hlen : to_unsigned (h.get_length s) ≠ 0)
    (havail : 0 < available_length h s) :
    ∃ r, recalculate h s = .ok r ∧
      r.positioner_offset_ = to_int (to_unsigned (h.offset_before s)) ∧
      get_positioner_offset r = to_unsigned (h.offset_before s) ∧
      r.item_position_ = 0 ∧
      r.positioner_length_ =
        h.positioner_length
          { s with positioner_offset_ := to_int (to_unsigned (h.offset_before s)) } ∧
      r.pixels_per_step_ = s.pixels_per_step_ := by
  have hc : s.item_count_ ≤ 1 := by omega
  have hrun : recalculate h s = .ok (update_canvas
      { recalculate_positioner h
          { s with positioner_offset_ := to_int (to_unsigned (h.offset_before s)) } with
        item_position_ := 0 }) := by
    unfold available_length at havail
    unfold recalculate
    simp only [hlen, if_false, havail, not_true_eq_false, hc, if_true]
  exact ⟨_, hrun, rfl, to_int_to_unsigned _, rfl, rfl, rfl⟩

/-- Witness of C9: the placed bar with a single item. -/
theorem recalculate_all_visible_witness :
    ({ placed_slider 5 with item_count_ := 1 } : slider_base).item_count_ = 1 ∧
      ∃ r, recalculate track_hooks { placed_slider 5 with item_count_ := 1 } = .ok r ∧
        r.positioner_offset_
          = to_int (to_unsigned
              (track_hooks.offset_before { placed_slider 5 with item_count_ := 1 })) ∧
        get_positioner_offset r
          = to_unsigned (track_hooks.offset_before { placed_slider 5 with item_count_ := 1 }) ∧
        r.item_position_ = 0 ∧
        r.positioner_length_ =
          track_hooks.positioner_length
            { ({ placed_slider 5 with item_count_ := 1 } : slider_base) with
              positioner_offset_ :=
                to_int (to_unsigned
                  (track_hooks.offset_before { placed_slider 5 with item_count_ := 1 })) } ∧
        r.pixels_per_step_
          = ({ placed_slider 5 with item_count_ := 1 } : slider_base).pixels_per_step_ :=
  ⟨rfl,
    recalculate_all_visible track_hooks { placed_slider 5 with item_count_ := 1 }
      (Or.inr rfl) (by decide) (by decide)⟩

/-- C10: with at least 2 items, a track length that is not zero and a positive
available length, `recalculate` returns; the divisor `steps + 1` it computes
is `item_count - 1`, which is at least 1; `pixels_per_step_` is the float
quotient of `available_length - positioner_length_` by that divisor; and the
result is `set_slider_position` applied to the position held, which ends in
`[0, item_count - 1]`. -/
theorem recalculate_steps (h : hooks) (s : slider_base)
    (hcount : 2 ≤ s.item_count_) (hint : s.item_count_ < 2 ^ 31)
    (hlen : to_unsigned (h.get_length s) ≠ 0)
    (havail : 0 < available_length h s) :
    ∃ r, recalculate h s = .ok r ∧
      to_unsigned (to_unsigned (s.item_count_ - 2) + 1) = s.item_count_ - 1 ∧
      1 ≤ s.item_count_ - 1 ∧
      r.pixels_per_step_ =
        float.div (float.of_int (available_length h s - h.positioner_length s))
          (float.of_int (s.item_count_ - 1)) ∧
      r = set_slider_position
          { s with
            positioner_length_ := h.positioner_length s
            pixels_per_step_ :=
              float.div (float.of_int (available_length h s - h.positioner_length s))
                (float.of_int (s.item_count_ - 1)) }
          s.item_position_ ∧
      r.item_position_ = clamp s.item_position_ 0 (s.item_count_ - 1) ∧
      0 ≤ r.item_position_ ∧ r.item_position_ ≤ s.item_count_ - 1 := by
  have hc : ¬ s.item_count_ ≤ 1 := by omega
  have hdiv : to_unsigned (to_unsigned (s.item_count_ - 2) + 1) = s.item_count_ - 1 := by
    unfold to_unsigned
    omega
  have hrun : recalculate h s = .ok (set_slider_position
      { s with
        positioner_length_ := h.positioner_length s
        pixels_per_step_ :=
          float.div (float.of_int (available_length h s - h.positioner_length s))
            (float.of_int (s.item_count_ - 1)) }
      s.item_position_) := by
    unfold available_length at havail
    unfold recalculate
    simp only [hlen, if_false, havail, not_true_eq_false, hc, recalculate_positioner, hdiv,
      available_length]
  refine ⟨_, hrun, hdiv, by omega, rfl, rfl, rfl, ?_, ?_⟩
  · show 0 ≤ clamp s.item_position_ 0 (s.item_count_ - 1)
    unfold clamp
    omega
  · show clamp s.item_position_ 0 (s.item_count_ - 1) ≤ s.item_count_ - 1
    unfold clamp
    omega

/-- Witness of C10: the placed bar with 10 items at position 5; the step is
`(120 - 30) / 9`, 10 pixels. -/
theorem recalculate_steps_witness :
    (2 ≤ (placed_slider 5).item_count_ ∧ (placed_slider 5).item_count_ < 2 ^ 31) ∧
      ∃ r, recalculate track_hooks (placed_slider 5) = .ok r ∧
        r.pixels_per_step_ = float.of_int 10 ∧ r.item_position_ = 5 := by
  obtain ⟨r, hr, _, _, hpps, _, hpos, _⟩ :=
    recalculate_steps track_hooks (placed_slider 5) (by decide) (by decide) (by decide)
      (by decide)
  exact ⟨by decide, r, hr, hpps.trans (by decide), hpos.trans (by decide)⟩

/-! ## The setter once more -/

/-- C13: `set_slider_position p` applied twice gives the widget that one
application gives, so the same `positioner_offset_` and `item_position_`. -/
theorem set_slider_position_idempotent (s : slider_base) (p : Int) :
    set_slider_position (set_slider_position s p) p = set_slider_position s p ∧
      (set_slider_position (set_slider_position s p) p).positioner_offset_
        = (set_slider_position s p).positioner_offset_ ∧
      (set_slider_position (set_slider_position s p) p).item_position_
        = (set_slider_position s p).item_position_ := by
  have hpos : (set_slider_position (set_slider_position s p) p).item_position_
      = (set_slider_position s p).item_position_ := by
    simp only [set_slider_position_item_position, set_slider_position_item_count]
  have hall : set_slider_position (set_slider_position s p) p = set_slider_position s p := by
    simp only [set_slider_position, update_canvas]
  exact ⟨hall, by rw [hall], hpos⟩

/-- C15: when the track length is zero `recalculate` returns the widget as it
is, whatever the insets and the item count are: no field changes, and the
assertion on the available length is not reached. -/
theorem recalculate_unplaced (h : hooks) (s : slider_base)
    (hlen : to_unsigned (h.get_length s) = 0) :
    recalculate h s = .ok s := by
  unfold recalculate
  simp only [hlen, if_true]

/-- Witness of C15: the unplaced bar. Its available length is 0, so the
assertion would fail if it were reached. -/
theorem recalculate_unplaced_witness :
    to_unsigned (unplaced_hooks.get_length unplaced_slider) = 0 ∧
      ¬ 0 < available_length unplaced_hooks unplaced_slider ∧
      recalculate unplaced_hooks unplaced_slider = .ok unplaced_slider :=
  ⟨by decide, by decide, recalculate_unplaced unplaced_hooks unplaced_slider (by decide)⟩

/-- C12: the offset a drag writes is not the one derived from the position.
A drag of the bar from position 5 to position 7 leaves `positioner_offset_` at
`0 + 90 * 10 / 7 = 128`, while `set_slider_position 7` derives 70 on the same
widget. With a leading inset of 5 pixels `set_slider_position 5` writes 50, the
product alone, although `recalculate` starts a single item at the inset, 5. -/
theorem drag_offset_not_derived :
    (signal_handler_mouse_motion track_hooks (pressed_slider 5) false false ⟨84, 0⟩).map
        (fun r => (r.1.item_position_, r.1.positioner_offset_)) = .ok (7, 128) ∧
      (set_slider_position (pressed_slider 5) 7).positioner_offset_ = 70 ∧
      (slider_set_item_count inset_hooks slider_base.init 10).map
        (fun s => ((set_slider_position s 5).item_position_,
          (set_slider_position s 5).positioner_offset_,
          to_unsigned (inset_hooks.offset_before s),
          (set_slider_position s 5).pixels_per_step_)) = .ok (5, 50, 5, float.of_int 10) ∧
      (slider_set_item_count inset_hooks slider_base.init 1).map
        (fun s => s.positioner_offset_) = .ok 5 := by
  decide

/-! ## The interaction state machine -/

/-- C16: a left button up in state `PRESSED`, in a window, returns with the
state `FOCUSED` if the pointer is on the positioner and `ENABLED` if not, has
called `mouse_capture(false)`, has reset the drag session and has kept the
position; in any other state it returns the widget and the flag `handled` as
they were. -/
theorem left_button_up_transition (h : hooks) (s : slider_base) (handled : Bool)
    (mouse_position : point) :
    (s.state_ = .PRESSED → h.get_window = true →
      ∃ r, signal_handler_left_button_up h s handled mouse_position = .ok (r, true) ∧
        r.state_ =
          (if h.on_positioner { s with mouse_capture := false :: s.mouse_capture }
              ⟨mouse_position.x - h.get_x, mouse_position.y - h.get_y⟩
            then .FOCUSED else .ENABLED) ∧
        r.mouse_capture = false :: s.mouse_capture ∧
        capture_held r = false ∧
        drag_session_inert r ∧
        r.item_position_ = s.item_position_) ∧
    (s.state_ ≠ .PRESSED →
      signal_handler_left_button_up h s handled mouse_position = .ok (s, handled)) := by
  constructor
  · intro hs hw
    unfold signal_handler_left_button_up
    rw [if_neg (by simp [hs]), if_neg (by simp [hw])]
    by_cases hp : h.on_positioner { s with mouse_capture := false :: s.mouse_capture }
        ⟨mouse_position.x - h.get_x, mouse_position.y - h.get_y⟩ = true
    · dsimp only
      rw [if_pos hp, if_pos hp]
      refine ⟨_, rfl, ?_, ?_, ?_, ⟨rfl, rfl⟩, ?_⟩ <;> simp [set_state, hs, capture_held]
    · dsimp only
      rw [if_neg hp, if_neg hp]
      refine ⟨_, rfl, ?_, ?_, ?_, ⟨rfl, rfl⟩, ?_⟩ <;> simp [set_state, hs, capture_held]
  · intro hs
    unfold signal_handler_left_button_up
    simp only [ne_eq, hs, not_false_eq_true, if_true]

/-- Witness of C16: the pressed bar released off the positioner, at `x = 100`,
ends `ENABLED`; the placed bar, which is not pressed, is left as it is. -/
theorem left_button_up_transition_witness :
    (∃ r, signal_handler_left_button_up track_hooks (pressed_slider 5) false ⟨100, 0⟩
        = .ok (r, true) ∧ r.state_ = .ENABLED ∧ capture_held r = false ∧
        drag_session_inert r ∧ r.item_position_ = 5) ∧
      signal_handler_left_button_up track_hooks (placed_slider 5) false ⟨100, 0⟩
        = .ok (placed_slider 5, false) := by
  obtain ⟨r, hr, hstate, _, hcap, hdrag, hpos⟩ :=
    (left_button_up_transition track_hooks (pressed_slider 5) false ⟨100, 0⟩).1
      (by decide) (by decide)
  exact ⟨⟨r, hr, hstate.trans (by decide), hcap, hdrag, hpos.trans (by decide)⟩,
    (left_button_up_transition track_hooks (placed_slider 5) false ⟨100, 0⟩).2 (by decide)⟩

/-- C17: a left button down on the positioner of a disabled widget leaves the
state `DISABLED` for `PRESSED`. -/
theorem left_button_down_leaves_disabled :
    (set_active (placed_slider 5) false).state_ = .DISABLED ∧
      (signal_handler_left_button_down track_hooks (set_active (placed_slider 5) false) false
        ⟨60, 0⟩).map (fun r => r.1.state_) = .ok .PRESSED := by
  decide

/-- C18: a pointer motion or a pointer enter in state `DISABLED` returns the
widget as it is, so the state, the position, the offset and the count of
notifications are unchanged, and sets the flags `handled` and `halt`. -/
theorem disabled_motion_halts (h : hooks) (s : slider_base) (handled halt : Bool)
    (coordinate : point) (hd : s.state_ = .DISABLED) :
    signal_handler_mouse_motion h s handled halt coordinate = .ok (s, true, true) ∧
      signal_handler_mouse_enter h s handled halt coordinate = .ok (s, true, true) := by
  unfold signal_handler_mouse_enter signal_handler_mouse_motion
  simp only [hd, and_self]

/-- Witness of C18: the placed bar, deactivated. -/
theorem disabled_motion_halts_witness :
    (set_active (placed_slider 5) false).state_ = .DISABLED ∧
      signal_handler_mouse_motion track_hooks (set_active (placed_slider 5) false) false false
        ⟨60, 0⟩ = .ok (set_active (placed_slider 5) false, true, true) :=
  ⟨by decide,
    (disabled_motion_halts track_hooks (set_active (placed_slider 5) false) false false ⟨60, 0⟩
      (by decide)).1⟩

/-- C19: `set_active false` during a drag leaves the state `PRESSED` for
`DISABLED` and keeps the drag session: the pointer of the press, `(60, 0)`,
and the position of the press, 5. A left button up resets both. -/
theorem set_active_keeps_drag_session :
    (set_active (pressed_slider 5) false).state_ = .DISABLED ∧
      (set_active (pressed_slider 5) false).drag_initial_mouse_ = ⟨60, 0⟩ ∧
      (set_active (pressed_slider 5) false).drag_initial_position_ = 5 ∧
      ¬ drag_session_inert (set_active (pressed_slider 5) false) ∧
      (signal_handler_left_button_up track_hooks (pressed_slider 5) false ⟨60, 0⟩).map
        (fun r => (r.1.drag_initial_mouse_, r.1.drag_initial_position_)) = .ok (⟨0, 0⟩, 0) := by
  unfold drag_session_inert
  decide

/-- C20: `set_active false` during a drag leaves the state `PRESSED` for
`DISABLED` without a call of `mouse_capture`: the only call on record is the
`mouse_capture(true)` of the press, so the capture is still held. A left button
up does call `mouse_capture(false)`. -/
theorem set_active_keeps_capture :
    (set_active (pressed_slider 5) false).state_ = .DISABLED ∧
      (set_active (pressed_slider 5) false).mouse_capture = [true] ∧
      capture_held (set_active (pressed_slider 5) false) = true ∧
      (signal_handler_left_button_up track_hooks (pressed_slider 5) false ⟨60, 0⟩).map
        (fun r => (r.1.mouse_capture, capture_held r.1)) = .ok ([false, true], false) := by
  decide


/-! ## Facts about binary32 -/

/-- The natural power of two the definitions use is the integer power, for an
exponent that is not negative. -/
theorem two_pow_toNat_of_nonneg (e : Int) (h : 0 ≤ e) :
    ((2 ^ e.toNat : Nat) : ℚ) = (2 : ℚ) ^ e := by
  obtain ⟨n, rfl⟩ := Int.eq_ofNat_of_zero_le h
  simp [zpow_natCast]

/-- For a negative exponent it is the inverse of the integer power. -/
theorem two_pow_toNat_of_neg (e : Int) (h : e < 0) :
    ((2 ^ (-e).toNat : Nat) : ℚ) = ((2 : ℚ) ^ e)⁻¹ := by
  obtain ⟨n, hn⟩ := Int.eq_ofNat_of_zero_le (show 0 ≤ -e by omega)
  have he : e = -(n : Int) := by omega
  subst he
  simp [zpow_neg, zpow_natCast]

/-- The value of a finite float: sign times mantissa times a power of two. -/
theorem float.to_rat_finite (neg : Bool) (m : Nat) (e : Int) :
    float.to_rat (.finite neg m e) = (if neg then -1 else 1) * ((m : ℚ) * (2 : ℚ) ^ e) := by
  unfold float.to_rat
  by_cases he : 0 ≤ e
  · simp only [he, if_true, Nat.cast_mul, two_pow_toNat_of_nonneg e he]
    cases neg <;> simp
  · simp only [he, if_false, two_pow_toNat_of_neg e (by omega)]
    cases neg <;> simp [div_eq_mul_inv]

/-- The result of `round_ratio` is finite with the sign asked for, a zero when
the numerator is 0, or the infinity of that sign. -/
theorem float.round_ratio_cases (neg : Bool) (a b : Nat) :
    (∃ m e, float.round_ratio neg a b = .finite neg m e ∧ (a = 0 → m = 0)) ∨
      float.round_ratio neg a b = .inf neg := by
  unfold float.round_ratio
  by_cases ha : a = 0
  · left
    exact ⟨0, -149, by simp [ha], fun _ => rfl⟩
  · simp only [ha, if_false]
    split_ifs <;>
      first
      | exact Or.inr rfl
      | exact Or.inl ⟨_, _, rfl, fun h => h.elim⟩


/-- An integer that is not negative converts to a float with the sign bit
clear. -/
theorem float.of_int_nonneg_cases (c : Int) (hc : 0 ≤ c) :
    (∃ m e, float.of_int c = .finite false m e) ∨ float.of_int c = .inf false := by
  have hd : decide (c < 0) = false := by simp; omega
  unfold float.of_int
  rw [hd]
  rcases float.round_ratio_cases false c.natAbs 1 with ⟨m, e, h, _⟩ | h
  · exact Or.inl ⟨m, e, h⟩
  · exact Or.inr h

/-- The product of a converted integer that is not negative and a float that
is not negative, when finite, has the sign bit clear or is a zero. -/
theorem float.mul_of_int_sign (c : Int) (hc : 0 ≤ c) (x : float)
    (hx : float.is_nonneg x = true) (neg : Bool) (m : Nat) (e : Int)
    (h : float.mul (float.of_int c) x = .finite neg m e) : neg = false ∨ m = 0 := by
  rcases float.of_int_nonneg_cases c hc with ⟨m1, e1, h1⟩ | h1
  · rw [h1] at h
    cases x with
    | finite n2 m2 e2 =>
      simp only [float.is_nonneg, Bool.or_eq_true, Bool.not_eq_true', decide_eq_true_eq] at hx
      simp only [float.mul, Bool.false_xor] at h
      split_ifs at h
      all_goals
        first
        | (rcases float.round_ratio_cases n2 (m1 * m2 * 2 ^ (e1 + e2).toNat) 1 with
            ⟨m3, e3, h3, hz⟩ | h3 <;> rw [h3] at h
           · injection h with hn hm he
             rcases hx with hx | hx
             · left; rw [← hn]; exact hx
             · right; rw [← hm]; exact hz (by rw [hx]; simp)
           · exact absurd h (by simp))
        | (rcases float.round_ratio_cases n2 (m1 * m2) (2 ^ (-(e1 + e2)).toNat) with
            ⟨m3, e3, h3, hz⟩ | h3 <;> rw [h3] at h
           · injection h with hn hm he
             rcases hx with hx | hx
             · left; rw [← hn]; exact hx
             · right; rw [← hm]; exact hz (by rw [hx]; simp)
           · exact absurd h (by simp))
    | inf n2 =>
      simp only [float.mul] at h
      split_ifs at h
    | nan => simp [float.mul] at h
  · rw [h1] at h
    cases x with
    | finite n2 m2 e2 =>
      simp only [float.mul] at h
      split_ifs at h
    | inf n2 => simp [float.mul] at h
    | nan => simp [float.mul] at h

/-- The integer part of a finite float that is not negative is its floor. -/
theorem float.trunc_floor (m : Nat) (e : Int) :
    ∃ t : Nat, float.trunc (.finite false m e) = some (t : Int) ∧
      (t : ℚ) ≤ float.to_rat (.finite false m e) ∧
      float.to_rat (.finite false m e) < (t : ℚ) + 1 := by
  by_cases he : 0 ≤ e
  · refine ⟨m * 2 ^ e.toNat, by simp [float.trunc, he], ?_, ?_⟩ <;>
      simp [float.to_rat, he]
  · refine ⟨m / 2 ^ (-e).toNat, by simp [float.trunc, he], ?_, ?_⟩
    · simp only [float.to_rat, he, if_false, Bool.false_eq_true]
      exact Nat.cast_div_le
    · simp only [float.to_rat, he, if_false, Bool.false_eq_true]
      have hd : (0 : ℚ) < ((2 ^ (-e).toNat : Nat) : ℚ) := by positivity
      rw [div_lt_iff₀ hd]
      have h2 : m < (m / 2 ^ (-e).toNat + 1) * 2 ^ (-e).toNat :=
        Nat.lt_mul_of_div_lt (Nat.lt_succ_self _) (by positivity)
      exact_mod_cast h2


/-! ## The offset the setter writes -/

/-- Counterexample to C11 as stated. With 11 items on 19 pixels of travel the
step is the float nearest to 1.9, which is below 1.9; at position 10 the exact
product is below 19, yet the offset written is 19, the truncation of the
rounded float product: the offset is not rounded down. And with a step of
`2^31` pixels the product at position 1 does not fit the `int` member; the
offset written is `-2^31`. -/
theorem set_slider_position_offset_not_exact :
    (slider_set_item_count narrow_hooks slider_base.init 11).map
        (fun s => (s.pixels_per_step_, (set_slider_position s 10).item_position_,
          (set_slider_position s 10).positioner_offset_))
        = .ok (.finite false 15938355 (-23), 10, 19) ∧
      float.to_rat (.finite false 15938355 (-23)) * 10 < 19 ∧
      (set_slider_position
        { placed_slider 0 with item_count_ := 2, pixels_per_step_ := float.of_int (2 ^ 31) }
        1).positioner_offset_ = -(2 ^ 31) ∧
      float.trunc (float.mul (float.of_int 1) (float.of_int (2 ^ 31))) = some (2 ^ 31) := by
  refine ⟨by decide, ?_, by decide, by decide⟩
  rw [float.to_rat_finite]
  norm_num

/-- C11, amended: when `pixels_per_step_` is not negative and the float
product of the clamped position and `pixels_per_step_` is finite with an
integer part `t` below `2^31`, `set_slider_position p` writes `t` to
`positioner_offset_`; `t` is the floor of that float product. This holds for
every `p`, the position held included. -/
theorem set_slider_position_offset (s : slider_base) (p t : Int)
    (hpps : float.is_nonneg s.pixels_per_step_ = true)
    (hprod : float.trunc (float.mul (float.of_int (clamp p 0 (s.item_count_ - 1)))
      s.pixels_per_step_) = some t)
    (hfit : t < 2 ^ 31) :
    (set_slider_position s p).positioner_offset_ = t ∧ 0 ≤ t ∧
      (t : ℚ) ≤ float.to_rat (float.mul (float.of_int (clamp p 0 (s.item_count_ - 1)))
        s.pixels_per_step_) ∧
      float.to_rat (float.mul (float.of_int (clamp p 0 (s.item_count_ - 1)))
        s.pixels_per_step_) < (t : ℚ) + 1 := by
  have hc : 0 ≤ clamp p 0 (s.item_count_ - 1) := (clamp_bounds p (s.item_count_ - 1)).1
  have hoff : (set_slider_position s p).positioner_offset_ =
      to_int (float.to_unsigned (float.mul (float.of_int (clamp p 0 (s.item_count_ - 1)))
        s.pixels_per_step_)) := rfl
  rw [hoff]
  generalize hx : float.mul (float.of_int (clamp p 0 (s.item_count_ - 1))) s.pixels_per_step_
    = x at hprod ⊢
  cases x with
  | finite neg m e =>
    have hsign := float.mul_of_int_sign _ hc _ hpps neg m e hx
    have key : 0 ≤ t ∧ (t : ℚ) ≤ float.to_rat (.finite neg m e) ∧
        float.to_rat (.finite neg m e) < (t : ℚ) + 1 := by
      rcases hsign with hneg | hm
      · subst hneg
        obtain ⟨n, hn, h1, h2⟩ := float.trunc_floor m e
        rw [hn] at hprod
        injection hprod with ht
        subst ht
        exact ⟨by positivity, by exact_mod_cast h1, by exact_mod_cast h2⟩
      · subst hm
        have ht : t = 0 := by
          simp only [float.trunc, zero_mul, Nat.zero_div, ite_self, Nat.cast_zero, neg_zero,
            Option.some.injEq] at hprod
          exact hprod.symm
        subst ht
        simp [float.to_rat]
    refine ⟨?_, key⟩
    simp only [float.to_unsigned, hprod]
    have h63 : -(2 ^ 63 : Int) ≤ t ∧ t < 2 ^ 63 := by
      constructor <;> omega
    simp only [h63, and_self, if_true]
    unfold to_int
    omega
  | inf neg => simp [float.trunc] at hprod
  | nan => simp [float.trunc] at hprod

/-- Witness of the amended C11: the placed bar, 10 pixels per step, asked for
the position it holds, 5; the offset written is 50. -/
theorem set_slider_position_offset_witness :
    float.is_nonneg (placed_slider 5).pixels_per_step_ = true ∧
      (set_slider_position (placed_slider 5) 5).positioner_offset_ = 50 :=
  ⟨by decide,
    (set_slider_position_offset (placed_slider 5) 5 50 (by decide) (by decide) (by decide)).1⟩


/-! ## Rounding to binary32 -/

/-- With enough fuel `log2_fuel` brackets its argument between two powers of
two. -/
theorem log2_fuel_spec (fuel : Nat) : ∀ n : Nat, 1 ≤ n → n ≤ fuel →
    2 ^ log2_fuel fuel n ≤ n ∧ n < 2 ^ (log2_fuel fuel n + 1) := by
  induction fuel with
  | zero => intro n h1 h2; omega
  | succ f ih =>
    intro n h1 h2
    unfold log2_fuel
    by_cases h : 2 ≤ n
    · simp only [h, if_true]
      obtain ⟨a, b⟩ := ih (n / 2) (by omega) (by omega)
      rw [pow_succ] at b ⊢
      rw [pow_succ]
      constructor <;> omega
    · simp only [h, if_false]
      constructor <;> simp <;> omega

/-- The function `ilog2` is the floor of the binary logarithm. -/
theorem ilog2_spec (n : Nat) (h : 1 ≤ n) : 2 ^ ilog2 n ≤ n ∧ n < 2 ^ (ilog2 n + 1) :=
  log2_fuel_spec n n h (le_refl n)

/-- The test `ge_pow2` decides `2^k ≤ a / b`. -/
theorem ge_pow2_iff (a b : Nat) (hb : 0 < b) (k : Int) :
    ge_pow2 a b k = true ↔ (2 : ℚ) ^ k ≤ (a : ℚ) / b := by
  have hbq : (0 : ℚ) < b := by exact_mod_cast hb
  unfold ge_pow2
  by_cases hk : 0 ≤ k
  · simp only [hk, if_true, decide_eq_true_eq]
    rw [le_div_iff₀ hbq, ← two_pow_toNat_of_nonneg k hk]
    constructor
    · intro h; rw [mul_comm]; exact_mod_cast h
    · intro h; rw [mul_comm] at h; exact_mod_cast h
  · simp only [hk, if_false, decide_eq_true_eq]
    have h2 := two_pow_toNat_of_neg k (by omega)
    have hpos : (0 : ℚ) < (2 : ℚ) ^ k := by positivity
    rw [le_div_iff₀ hbq]
    have : ((b : ℚ) ≤ a * ((2 ^ (-k).toNat : Nat) : ℚ)) ↔ (2 : ℚ) ^ k * b ≤ a := by
      rw [h2, ← div_eq_mul_inv, le_div_iff₀ hpos, mul_comm]
    rw [← this]
    constructor
    · intro h; exact_mod_cast h
    · intro h; exact_mod_cast h

/-- The function `div_half_even` is within one half of the exact quotient. -/
theorem div_half_even_spec (a b : Nat) (hb : 0 < b) :
    |((div_half_even a b : Nat) : ℚ) - (a : ℚ) / b| ≤ 1 / 2 := by
  have hbq : (0 : ℚ) < b := by exact_mod_cast hb
  have hdm : (a : ℚ) = b * (a / b : Nat) + (a % b : Nat) := by
    exact_mod_cast (Nat.div_add_mod a b).symm
  have hr : a % b < b := Nat.mod_lt a hb
  have hrq : ((a % b : Nat) : ℚ) < b := by exact_mod_cast hr
  have hr0 : (0 : ℚ) ≤ ((a % b : Nat) : ℚ) := by positivity
  have hx : (a : ℚ) / b = (a / b : Nat) + ((a % b : Nat) : ℚ) / b := by
    rw [hdm]; field_simp; ring
  unfold div_half_even
  simp only
  rw [abs_le]
  split_ifs with h1 h2 h3
  · have h1q : 2 * ((a % b : Nat) : ℚ) < b := by exact_mod_cast h1
    have : ((a % b : Nat) : ℚ) / b < 1 / 2 := by rw [div_lt_iff₀ hbq]; linarith
    have h0 : 0 ≤ ((a % b : Nat) : ℚ) / b := by positivity
    rw [hx]; constructor <;> linarith
  · have h2q : (b : ℚ) < 2 * ((a % b : Nat) : ℚ) := by exact_mod_cast h2
    have : (1 : ℚ) / 2 < ((a % b : Nat) : ℚ) / b := by rw [lt_div_iff₀ hbq]; linarith
    have h1' : ((a % b : Nat) : ℚ) / b < 1 := by rw [div_lt_iff₀ hbq]; linarith
    rw [hx]; push_cast; constructor <;> linarith
  · have he : 2 * (a % b) = b := by omega
    have heq : ((a % b : Nat) : ℚ) / b = 1 / 2 := by
      rw [div_eq_iff hbq.ne']; have : (2 : ℚ) * ((a % b : Nat) : ℚ) = b := by exact_mod_cast he
      linarith
    rw [hx, heq]; constructor <;> linarith
  · have he : 2 * (a % b) = b := by omega
    have heq : ((a % b : Nat) : ℚ) / b = 1 / 2 := by
      rw [div_eq_iff hbq.ne']; have : (2 : ℚ) * ((a % b : Nat) : ℚ) = b := by exact_mod_cast he
      linarith
    rw [hx, heq]; push_cast; constructor <;> linarith

/-- Dividing by 1 rounds nothing. -/
theorem div_half_even_one (a : Nat) : div_half_even a 1 = a := by
  unfold div_half_even
  simp [Nat.mod_one]


/-- The rounded quotient does not exceed an integer the exact quotient does not
exceed. -/
theorem div_half_even_le (a b k : Nat) (hb : 0 < b) (h : a ≤ k * b) :
    div_half_even a b ≤ k := by
  have hq : a / b ≤ k := Nat.div_le_of_le_mul (by rw [Nat.mul_comm]; exact h)
  have hdm := Nat.div_add_mod a b
  have hr := Nat.mod_lt a hb
  unfold div_half_even
  simp only
  rcases Nat.lt_or_ge (a / b) k with hlt | hge
  · split_ifs <;> omega
  · have hqk : a / b = k := le_antisymm hq hge
    have hr0 : a % b = 0 := by
      rw [hqk] at hdm
      have : b * k = k * b := Nat.mul_comm b k
      omega
    rw [hr0, hqk]
    simp [hb]

/-- The rounded quotient is at least every integer the exact quotient is at
least. -/
theorem div_half_even_ge (a b k : Nat) (hb : 0 < b) (h : k * b ≤ a) :
    k ≤ div_half_even a b := by
  have hq : k ≤ a / b := (Nat.le_div_iff_mul_le hb).mpr h
  unfold div_half_even
  simp only
  split_ifs <;> omega

/-- The exponent `round_ratio` selects brackets the quotient: `2^E ≤ a / b <
2^(E+1)`. -/
theorem float.round_ratio_exponent (a b : Nat) (ha : 0 < a) (hb : 0 < b) (E : Int)
    (hE : E = if ge_pow2 a b ((ilog2 a : Int) - (ilog2 b : Int)) then
      (ilog2 a : Int) - (ilog2 b : Int) else (ilog2 a : Int) - (ilog2 b : Int) - 1) :
    (2 : ℚ) ^ E ≤ (a : ℚ) / b ∧ (a : ℚ) / b < (2 : ℚ) ^ (E + 1) := by
  have hbq : (0 : ℚ) < b := by exact_mod_cast hb
  obtain ⟨a1, a2⟩ := ilog2_spec a ha
  obtain ⟨b1, b2⟩ := ilog2_spec b hb
  have a1q : (2 : ℚ) ^ (ilog2 a : Int) ≤ a := by rw [zpow_natCast]; exact_mod_cast a1
  have a2q : (a : ℚ) < (2 : ℚ) ^ ((ilog2 a : Int) + 1) := by
    rw [show ((ilog2 a : Int) + 1) = ((ilog2 a + 1 : Nat) : Int) by push_cast; ring, zpow_natCast]
    exact_mod_cast a2
  have b1q : (2 : ℚ) ^ (ilog2 b : Int) ≤ b := by rw [zpow_natCast]; exact_mod_cast b1
  have b2q : (b : ℚ) < (2 : ℚ) ^ ((ilog2 b : Int) + 1) := by
    rw [show ((ilog2 b : Int) + 1) = ((ilog2 b + 1 : Nat) : Int) by push_cast; ring, zpow_natCast]
    exact_mod_cast b2
  have h2 : (2 : ℚ) ≠ 0 := by norm_num
  have hlo : (2 : ℚ) ^ ((ilog2 a : Int) - (ilog2 b : Int) - 1) < (a : ℚ) / b := by
    rw [lt_div_iff₀ hbq]
    have e1 : (2 : ℚ) ^ ((ilog2 a : Int) - (ilog2 b : Int) - 1) * (2 : ℚ) ^ ((ilog2 b : Int) + 1)
        = (2 : ℚ) ^ (ilog2 a : Int) := by
      rw [← zpow_add₀ h2]; congr 1; ring
    have hp : (0 : ℚ) < (2 : ℚ) ^ ((ilog2 a : Int) - (ilog2 b : Int) - 1) := by positivity
    calc (2 : ℚ) ^ ((ilog2 a : Int) - (ilog2 b : Int) - 1) * b
        < (2 : ℚ) ^ ((ilog2 a : Int) - (ilog2 b : Int) - 1) * (2 : ℚ) ^ ((ilog2 b : Int) + 1) :=
          mul_lt_mul_of_pos_left b2q hp
      _ = (2 : ℚ) ^ (ilog2 a : Int) := e1
      _ ≤ a := a1q
  have hhi : (a : ℚ) / b < (2 : ℚ) ^ ((ilog2 a : Int) - (ilog2 b : Int) + 1) := by
    rw [div_lt_iff₀ hbq]
    have e1 : (2 : ℚ) ^ ((ilog2 a : Int) - (ilog2 b : Int) + 1) * (2 : ℚ) ^ (ilog2 b : Int)
        = (2 : ℚ) ^ ((ilog2 a : Int) + 1) := by
      rw [← zpow_add₀ h2]; congr 1; ring
    have hp : (0 : ℚ) < (2 : ℚ) ^ ((ilog2 a : Int) - (ilog2 b : Int) + 1) := by positivity
    calc (a : ℚ) < (2 : ℚ) ^ ((ilog2 a : Int) + 1) := a2q
      _ = (2 : ℚ) ^ ((ilog2 a : Int) - (ilog2 b : Int) + 1) * (2 : ℚ) ^ (ilog2 b : Int) := e1.symm
      _ ≤ (2 : ℚ) ^ ((ilog2 a : Int) - (ilog2 b : Int) + 1) * b :=
          mul_le_mul_of_nonneg_left b1q hp.le
  by_cases hg : ge_pow2 a b ((ilog2 a : Int) - (ilog2 b : Int)) = true
  · rw [if_pos hg] at hE
    subst hE
    exact ⟨(ge_pow2_iff a b hb _).mp hg, hhi⟩
  · rw [if_neg hg] at hE
    subst hE
    refine ⟨hlo.le, ?_⟩
    have := (ge_pow2_iff a b hb ((ilog2 a : Int) - (ilog2 b : Int))).not.mp hg
    rw [show (ilog2 a : Int) - (ilog2 b : Int) - 1 + 1 = (ilog2 a : Int) - (ilog2 b : Int) by ring]
    exact not_le.mp this

/-- The result of `round_ratio` for a quotient in the normal range, in terms
of the exponent `E` and the rounded mantissa `m`. -/
theorem float.round_ratio_unfold (neg : Bool) (a b : Nat) (ha : a ≠ 0) (E : Int)
    (hE : E = if ge_pow2 a b ((ilog2 a : Int) - (ilog2 b : Int)) then
      (ilog2 a : Int) - (ilog2 b : Int) else (ilog2 a : Int) - (ilog2 b : Int) - 1)
    (hlo : -126 ≤ E) (m : Nat)
    (hm : m = if 0 ≤ E - 23 then div_half_even a (b * 2 ^ (E - 23).toNat)
      else div_half_even (a * 2 ^ (-(E - 23)).toNat) b) :
    float.round_ratio neg a b =
      if 104 < (if m = 2 ^ 24 then E - 23 + 1 else E - 23) then .inf neg
      else .finite neg (if m = 2 ^ 24 then 2 ^ 23 else m)
        (if m = 2 ^ 24 then E - 23 + 1 else E - 23) := by
  have hmax : max (E - 23) (-149) = E - 23 := max_eq_left (by omega)
  subst hm
  subst hE
  unfold float.round_ratio
  rw [if_neg ha]
  simp only [hmax]


/-- The mantissa `round_ratio` computes for a quotient in the normal range. -/
theorem float.round_ratio_mantissa (a b : Nat) (hb : 0 < b) (E : Int) (m : Nat)
    (hm : m = if 0 ≤ E - 23 then div_half_even a (b * 2 ^ (E - 23).toNat)
      else div_half_even (a * 2 ^ (-(E - 23)).toNat) b) :
    |(m : ℚ) - (a : ℚ) / b * ((2 : ℚ) ^ (E - 23))⁻¹| ≤ 1 / 2 := by
  have hbq : (0 : ℚ) < b := by exact_mod_cast hb
  have hP : (0 : ℚ) < (2 : ℚ) ^ (E - 23) := by positivity
  by_cases he : 0 ≤ E - 23
  · rw [if_pos he] at hm
    subst hm
    have h := div_half_even_spec a (b * 2 ^ (E - 23).toNat) (by positivity)
    have hc : ((b * 2 ^ (E - 23).toNat : Nat) : ℚ) = b * (2 : ℚ) ^ (E - 23) := by
      rw [Nat.cast_mul, two_pow_toNat_of_nonneg _ he]
    rw [hc] at h
    have : (a : ℚ) / (b * (2 : ℚ) ^ (E - 23)) = (a : ℚ) / b * ((2 : ℚ) ^ (E - 23))⁻¹ := by
      field_simp
    rw [← this]
    exact h
  · rw [if_neg he] at hm
    subst hm
    have h := div_half_even_spec (a * 2 ^ (-(E - 23)).toNat) b hb
    have hc : ((a * 2 ^ (-(E - 23)).toNat : Nat) : ℚ) = a * ((2 : ℚ) ^ (E - 23))⁻¹ := by
      rw [Nat.cast_mul, two_pow_toNat_of_neg _ (by omega)]
    rw [hc] at h
    have : (a : ℚ) * ((2 : ℚ) ^ (E - 23))⁻¹ / b = (a : ℚ) / b * ((2 : ℚ) ^ (E - 23))⁻¹ := by
      ring
    rw [← this]
    exact h

/-- The mantissa `round_ratio` computes does not exceed an integer the scaled
quotient does not exceed. -/
theorem float.round_ratio_mantissa_le (a b : Nat) (hb : 0 < b) (E : Int) (m : Nat)
    (hm : m = if 0 ≤ E - 23 then div_half_even a (b * 2 ^ (E - 23).toNat)
      else div_half_even (a * 2 ^ (-(E - 23)).toNat) b) (k : Nat)
    (h : (a : ℚ) / b * ((2 : ℚ) ^ (E - 23))⁻¹ ≤ k) : m ≤ k := by
  have hbq : (0 : ℚ) < b := by exact_mod_cast hb
  have hP : (0 : ℚ) < (2 : ℚ) ^ (E - 23) := by positivity
  by_cases he : 0 ≤ E - 23
  · rw [if_pos he] at hm
    subst hm
    apply div_half_even_le _ _ _ (by positivity)
    have h1 : (a : ℚ) ≤ k * (b * (2 : ℚ) ^ (E - 23)) := by
      rw [← div_eq_mul_inv, div_div, div_le_iff₀ (by positivity)] at h
      exact h
    rw [← two_pow_toNat_of_nonneg _ he] at h1
    exact_mod_cast h1
  · rw [if_neg he] at hm
    subst hm
    apply div_half_even_le _ _ _ hb
    have h1 : (a : ℚ) * ((2 : ℚ) ^ (E - 23))⁻¹ ≤ k * b := by
      rw [div_mul_eq_mul_div, div_le_iff₀ hbq] at h
      exact h
    rw [← two_pow_toNat_of_neg _ (by omega)] at h1
    exact_mod_cast h1

/-- The mantissa `round_ratio` computes is at least every integer the scaled
quotient is at least. -/
theorem float.round_ratio_mantissa_ge (a b : Nat) (hb : 0 < b) (E : Int) (m : Nat)
    (hm : m = if 0 ≤ E - 23 then div_half_even a (b * 2 ^ (E - 23).toNat)
      else div_half_even (a * 2 ^ (-(E - 23)).toNat) b) (k : Nat)
    (h : (k : ℚ) ≤ (a : ℚ) / b * ((2 : ℚ) ^ (E - 23))⁻¹) : k ≤ m := by
  have hbq : (0 : ℚ) < b := by exact_mod_cast hb
  have hP : (0 : ℚ) < (2 : ℚ) ^ (E - 23) := by positivity
  by_cases he : 0 ≤ E - 23
  · rw [if_pos he] at hm
    subst hm
    apply div_half_even_ge _ _ _ (by positivity)
    have h1 : (k : ℚ) * (b * (2 : ℚ) ^ (E - 23)) ≤ a := by
      rw [← div_eq_mul_inv, div_div, le_div_iff₀ (by positivity)] at h
      exact h
    rw [← two_pow_toNat_of_nonneg _ he] at h1
    exact_mod_cast h1
  · rw [if_neg he] at hm
    subst hm
    apply div_half_even_ge _ _ _ hb
    have h1 : (k : ℚ) * b ≤ (a : ℚ) * ((2 : ℚ) ^ (E - 23))⁻¹ := by
      rw [div_mul_eq_mul_div, le_div_iff₀ hbq] at h
      exact h
    rw [← two_pow_toNat_of_neg _ (by omega)] at h1
    exact_mod_cast h1

/-- Rounding to binary32: a quotient in the normal range rounds to a finite
float within the relative error `2^-24`. -/
theorem float.round_ratio_spec (neg : Bool) (a b : Nat) (ha : 0 < a) (hb : 0 < b)
    (hlo : (2 : ℚ) ^ (-126 : Int) ≤ (a : ℚ) / b) (hhi : (a : ℚ) / b < (2 : ℚ) ^ (127 : Int)) :
    ∃ m e, float.round_ratio neg a b = .finite neg m e ∧
      |(m : ℚ) * (2 : ℚ) ^ e - (a : ℚ) / b| ≤ (a : ℚ) / b * (2 : ℚ) ^ (-24 : Int) := by
  obtain ⟨E, hE⟩ : ∃ E : Int, E = if ge_pow2 a b ((ilog2 a : Int) - (ilog2 b : Int)) then
      (ilog2 a : Int) - (ilog2 b : Int) else (ilog2 a : Int) - (ilog2 b : Int) - 1 := ⟨_, rfl⟩
  obtain ⟨hE1, hE2⟩ := float.round_ratio_exponent a b ha hb E hE
  have h12 : (1 : ℚ) < 2 := by norm_num
  have h20 : (2 : ℚ) ≠ 0 := by norm_num
  have hElo : -126 ≤ E := by
    have := (zpow_lt_zpow_iff_right₀ h12).mp (lt_of_le_of_lt hlo hE2)
    omega
  have hEhi : E < 127 := (zpow_lt_zpow_iff_right₀ h12).mp (lt_of_le_of_lt hE1 hhi)
  obtain ⟨m, hm⟩ : ∃ m : Nat, m = if 0 ≤ E - 23 then div_half_even a (b * 2 ^ (E - 23).toNat)
      else div_half_even (a * 2 ^ (-(E - 23)).toNat) b := ⟨_, rfl⟩
  have hmy := float.round_ratio_mantissa a b hb E m hm
  have hP : (0 : ℚ) < (2 : ℚ) ^ (E - 23) := by positivity
  have hPE : (2 : ℚ) ^ E = (2 : ℚ) ^ (23 : Int) * (2 : ℚ) ^ (E - 23) := by
    rw [← zpow_add₀ h20]; congr 1; ring
  have herr : |(m : ℚ) * (2 : ℚ) ^ (E - 23) - (a : ℚ) / b|
      ≤ (a : ℚ) / b * (2 : ℚ) ^ (-24 : Int) := by
    have e1 : (m : ℚ) * (2 : ℚ) ^ (E - 23) - (a : ℚ) / b
        = ((m : ℚ) - (a : ℚ) / b * ((2 : ℚ) ^ (E - 23))⁻¹) * (2 : ℚ) ^ (E - 23) := by
      field_simp
      ring
    rw [e1, abs_mul, abs_of_pos hP]
    have e2 : (2 : ℚ) ^ (E - 23) * (1 / 2) = (2 : ℚ) ^ E * (2 : ℚ) ^ (-24 : Int) := by
      rw [hPE]; norm_num; ring
    calc |(m : ℚ) - (a : ℚ) / b * ((2 : ℚ) ^ (E - 23))⁻¹| * (2 : ℚ) ^ (E - 23)
        ≤ 1 / 2 * (2 : ℚ) ^ (E - 23) := mul_le_mul_of_nonneg_right hmy hP.le
      _ = (2 : ℚ) ^ E * (2 : ℚ) ^ (-24 : Int) := by rw [← e2]; ring
      _ ≤ (a : ℚ) / b * (2 : ℚ) ^ (-24 : Int) := mul_le_mul_of_nonneg_right hE1 (by positivity)
  rw [float.round_ratio_unfold neg a b ha.ne' E hE hElo m hm]
  by_cases h24 : m = 2 ^ 24
  · simp only [if_pos h24]
    rw [if_neg (by omega)]
    refine ⟨2 ^ 23, E - 23 + 1, rfl, ?_⟩
    have e3 : ((2 ^ 23 : Nat) : ℚ) * (2 : ℚ) ^ (E - 23 + 1) = (m : ℚ) * (2 : ℚ) ^ (E - 23) := by
      rw [h24, zpow_add₀ h20]; norm_num; ring
    rw [e3]
    exact herr
  · simp only [if_neg h24]
    rw [if_neg (by omega)]
    exact ⟨m, E - 23, rfl, herr⟩


/-- Rounding to binary32 is rounding to nearest: a quotient in the normal range
rounds to a finite float that `float.rounds` relates to it. -/
theorem float.round_ratio_rounds (neg : Bool) (a b : Nat) (ha : 0 < a) (hb : 0 < b)
    (hlo : (2 : ℚ) ^ (-126 : Int) ≤ (a : ℚ) / b) (hhi : (a : ℚ) / b < (2 : ℚ) ^ (127 : Int)) :
    ∃ m e, float.round_ratio neg a b = .finite neg m e ∧ float.rounds m e ((a : ℚ) / b) := by
  obtain ⟨E, hE⟩ : ∃ E : Int, E = if ge_pow2 a b ((ilog2 a : Int) - (ilog2 b : Int)) then
      (ilog2 a : Int) - (ilog2 b : Int) else (ilog2 a : Int) - (ilog2 b : Int) - 1 := ⟨_, rfl⟩
  obtain ⟨hE1, hE2⟩ := float.round_ratio_exponent a b ha hb E hE
  have h12 : (1 : ℚ) < 2 := by norm_num
  have h20 : (2 : ℚ) ≠ 0 := by norm_num
  have hElo : -126 ≤ E := by
    have := (zpow_lt_zpow_iff_right₀ h12).mp (lt_of_le_of_lt hlo hE2)
    omega
  have hEhi : E < 127 := (zpow_lt_zpow_iff_right₀ h12).mp (lt_of_le_of_lt hE1 hhi)
  obtain ⟨m, hm⟩ : ∃ m : Nat, m = if 0 ≤ E - 23 then div_half_even a (b * 2 ^ (E - 23).toNat)
      else div_half_even (a * 2 ^ (-(E - 23)).toNat) b := ⟨_, rfl⟩
  have hmy := float.round_ratio_mantissa a b hb E m hm
  obtain ⟨x, hx⟩ : ∃ x : ℚ, x = (a : ℚ) / b := ⟨_, rfl⟩
  rw [← hx] at hE1 hE2 hmy hlo hhi ⊢
  have hP : (0 : ℚ) < (2 : ℚ) ^ (E - 23) := by positivity
  have hsplit : ∀ j : Int, (2 : ℚ) ^ j = (2 : ℚ) ^ (j - (E - 23)) * (2 : ℚ) ^ (E - 23) := by
    intro j
    rw [← zpow_add₀ h20]
    congr 1
    ring
  have hPE : (2 : ℚ) ^ E = (2 : ℚ) ^ (23 : Int) * (2 : ℚ) ^ (E - 23) := by
    rw [← zpow_add₀ h20]; congr 1; ring
  have hPE1 : (2 : ℚ) ^ (E + 1) = (2 : ℚ) ^ (24 : Int) * (2 : ℚ) ^ (E - 23) := by
    rw [← zpow_add₀ h20]; congr 1; ring
  have h223 : (2 : ℚ) ^ (23 : Int) = ((2 ^ 23 : Nat) : ℚ) := by norm_num
  have h224 : (2 : ℚ) ^ (24 : Int) = ((2 ^ 24 : Nat) : ℚ) := by norm_num
  -- the scaled quotient lies in [2^23, 2^24)
  have ht1 : ((2 ^ 23 : Nat) : ℚ) ≤ x * ((2 : ℚ) ^ (E - 23))⁻¹ := by
    rw [← div_eq_mul_inv, le_div_iff₀ hP, ← h223, ← hPE]
    exact hE1
  have ht2 : x * ((2 : ℚ) ^ (E - 23))⁻¹ ≤ ((2 ^ 24 : Nat) : ℚ) := by
    rw [← div_eq_mul_inv, div_le_iff₀ hP, ← h224, ← hPE1]
    exact hE2.le
  have hm23 : 2 ^ 23 ≤ m := float.round_ratio_mantissa_ge a b hb E m hm _ (by rw [← hx]; exact ht1)
  have hm24 : m ≤ 2 ^ 24 := float.round_ratio_mantissa_le a b hb E m hm _ (by rw [← hx]; exact ht2)
  have hdiff : (m : ℚ) * (2 : ℚ) ^ (E - 23) - x
      = ((m : ℚ) - x * ((2 : ℚ) ^ (E - 23))⁻¹) * (2 : ℚ) ^ (E - 23) := by
    field_simp
  have habs0 : |(m : ℚ) * (2 : ℚ) ^ (E - 23) - x| ≤ (2 : ℚ) ^ (E - 24) := by
    rw [hdiff, abs_mul, abs_of_pos hP]
    have e2 : (2 : ℚ) ^ (E - 24) = 1 / 2 * (2 : ℚ) ^ (E - 23) := by
      rw [show E - 24 = (-1 : Int) + (E - 23) by ring, zpow_add₀ h20]
      norm_num
    rw [e2]
    exact mul_le_mul_of_nonneg_right hmy hP.le
  have herr : |(m : ℚ) * (2 : ℚ) ^ (E - 23) - x| ≤ x * (2 : ℚ) ^ (-24 : Int) := by
    refine le_trans habs0 ?_
    have e2 : (2 : ℚ) ^ (E - 24) = (2 : ℚ) ^ E * (2 : ℚ) ^ (-24 : Int) := by
      rw [← zpow_add₀ h20]; congr 1
    rw [e2]
    exact mul_le_mul_of_nonneg_right hE1 (by positivity)
  have habs : ∀ E1 : Int, x < (2 : ℚ) ^ (E1 + 1) →
      |(m : ℚ) * (2 : ℚ) ^ (E - 23) - x| ≤ (2 : ℚ) ^ (E1 - 24) := by
    intro E1 h1
    have hlt := (zpow_lt_zpow_iff_right₀ h12).mp (lt_of_le_of_lt hE1 h1)
    exact le_trans habs0 (zpow_le_zpow_right₀ h12.le (by omega))
  -- a threshold with a 24-bit mantissa that is at least 2^E is a multiple of 2^(E-23)
  have hgrid : ∀ (n : Nat) (j : Int), n < 2 ^ 24 → (2 : ℚ) ^ E ≤ (n : ℚ) * (2 : ℚ) ^ j →
      ∃ k : Nat, (n : ℚ) * (2 : ℚ) ^ j = (k : ℚ) * (2 : ℚ) ^ (E - 23) := by
    intro n j hn hle
    have hj : E - 23 ≤ j := by
      by_contra hcon
      have hj1 : j + 24 ≤ E := by omega
      have hnq : (n : ℚ) < (2 : ℚ) ^ (24 : Int) := by rw [h224]; exact_mod_cast hn
      have hjpos : (0 : ℚ) < (2 : ℚ) ^ j := by positivity
      have h1 : (n : ℚ) * (2 : ℚ) ^ j < (2 : ℚ) ^ (24 : Int) * (2 : ℚ) ^ j :=
        mul_lt_mul_of_pos_right hnq hjpos
      have h2 : (2 : ℚ) ^ (24 : Int) * (2 : ℚ) ^ j = (2 : ℚ) ^ (j + 24) := by
        rw [← zpow_add₀ h20]; congr 1; ring
      have h3 : (2 : ℚ) ^ (j + 24) ≤ (2 : ℚ) ^ E := zpow_le_zpow_right₀ h12.le hj1
      linarith
    refine ⟨n * 2 ^ (j - (E - 23)).toNat, ?_⟩
    rw [Nat.cast_mul, two_pow_toNat_of_nonneg _ (by omega), mul_assoc, ← hsplit j]
  have hM2 : ∀ (n : Nat) (j : Int), n < 2 ^ 24 → x ≤ (n : ℚ) * (2 : ℚ) ^ j →
      (m : ℚ) * (2 : ℚ) ^ (E - 23) ≤ (n : ℚ) * (2 : ℚ) ^ j := by
    intro n j hn hle
    obtain ⟨k, hk⟩ := hgrid n j hn (le_trans hE1 hle)
    rw [hk] at hle ⊢
    have hkt : x * ((2 : ℚ) ^ (E - 23))⁻¹ ≤ k := by
      rw [← div_eq_mul_inv, div_le_iff₀ hP]
      exact hle
    have hmk : m ≤ k := float.round_ratio_mantissa_le a b hb E m hm k (by rw [← hx]; exact hkt)
    have hmkq : (m : ℚ) ≤ k := by exact_mod_cast hmk
    exact mul_le_mul_of_nonneg_right hmkq hP.le
  have hM1 : ∀ (n : Nat) (j : Int), n < 2 ^ 24 → (n : ℚ) * (2 : ℚ) ^ j ≤ x →
      (n : ℚ) * (2 : ℚ) ^ j ≤ (m : ℚ) * (2 : ℚ) ^ (E - 23) := by
    intro n j hn hle
    by_cases hsmall : (n : ℚ) * (2 : ℚ) ^ j < (2 : ℚ) ^ E
    · have hm23q : ((2 ^ 23 : Nat) : ℚ) ≤ m := by exact_mod_cast hm23
      have : (2 : ℚ) ^ E ≤ (m : ℚ) * (2 : ℚ) ^ (E - 23) := by
        rw [hPE, h223]
        exact mul_le_mul_of_nonneg_right hm23q hP.le
      linarith
    · obtain ⟨k, hk⟩ := hgrid n j hn (not_lt.mp hsmall)
      rw [hk] at hle ⊢
      have hkt : (k : ℚ) ≤ x * ((2 : ℚ) ^ (E - 23))⁻¹ := by
        rw [← div_eq_mul_inv, le_div_iff₀ hP]
        exact hle
      have hmk : k ≤ m := float.round_ratio_mantissa_ge a b hb E m hm k (by rw [← hx]; exact hkt)
      have hmkq : (k : ℚ) ≤ m := by exact_mod_cast hmk
      exact mul_le_mul_of_nonneg_right hmkq hP.le
  have key : ∀ (m1 : Nat) (e1 : Int), m1 < 2 ^ 24 →
      (m1 : ℚ) * (2 : ℚ) ^ e1 = (m : ℚ) * (2 : ℚ) ^ (E - 23) → float.rounds m1 e1 x := by
    intro m1 e1 hlt heq
    unfold float.rounds
    rw [heq]
    exact ⟨hlt, herr, hM2, hM1, habs⟩
  rw [float.round_ratio_unfold neg a b ha.ne' E hE hElo m hm]
  by_cases h24 : m = 2 ^ 24
  · simp only [if_pos h24]
    rw [if_neg (by omega)]
    refine ⟨2 ^ 23, E - 23 + 1, rfl, key _ _ (by norm_num) ?_⟩
    rw [h24, zpow_add₀ h20]; norm_num; ring
  · simp only [if_neg h24]
    rw [if_neg (by omega)]
    exact ⟨m, E - 23, rfl, key _ _ (by omega) rfl⟩


/-- Rounding to binary32 is exact on the integers below `2^24`. -/
theorem float.round_ratio_nat (neg : Bool) (n : Nat) (hn : n < 2 ^ 24) :
    ∃ m e, float.round_ratio neg n 1 = .finite neg m e ∧ e ≤ 0 ∧ m = n * 2 ^ (-e).toNat := by
  by_cases hn0 : n = 0
  · subst hn0
    exact ⟨0, -149, by simp [float.round_ratio], by omega, by simp⟩
  have hpos : 0 < n := Nat.pos_of_ne_zero hn0
  obtain ⟨E, hE⟩ : ∃ E : Int, E = if ge_pow2 n 1 ((ilog2 n : Int) - (ilog2 1 : Int)) then
      (ilog2 n : Int) - (ilog2 1 : Int) else (ilog2 n : Int) - (ilog2 1 : Int) - 1 := ⟨_, rfl⟩
  obtain ⟨hE1, hE2⟩ := float.round_ratio_exponent n 1 hpos (by norm_num) E hE
  have h12 : (1 : ℚ) < 2 := by norm_num
  simp only [Nat.cast_one, div_one] at hE1 hE2
  have hE0 : 0 ≤ E := by
    have h1 : (1 : ℚ) ≤ n := by exact_mod_cast hpos
    have h2 : (2 : ℚ) ^ (0 : Int) < (2 : ℚ) ^ (E + 1) := by
      rw [zpow_zero]; exact lt_of_le_of_lt h1 hE2
    have := (zpow_lt_zpow_iff_right₀ h12).mp h2
    omega
  have hE23 : E ≤ 23 := by
    have h1 : (n : ℚ) < (2 : ℚ) ^ (24 : Int) := by
      have e : ((2 ^ 24 : Nat) : ℚ) = (2 : ℚ) ^ (24 : Int) := by norm_num
      rw [← e]
      exact_mod_cast hn
    have := (zpow_lt_zpow_iff_right₀ h12).mp (lt_of_le_of_lt hE1 h1)
    omega
  have hnE : n < 2 ^ (E + 1).toNat := by
    have : (n : ℚ) < ((2 ^ (E + 1).toNat : Nat) : ℚ) := by
      rw [two_pow_toNat_of_nonneg _ (by omega)]; exact hE2
    exact_mod_cast this
  obtain ⟨m, hm⟩ : ∃ m : Nat, m = if 0 ≤ E - 23 then div_half_even n (1 * 2 ^ (E - 23).toNat)
      else div_half_even (n * 2 ^ (-(E - 23)).toNat) 1 := ⟨_, rfl⟩
  have hm' : m = n * 2 ^ (-(E - 23)).toNat := by
    by_cases he : 0 ≤ E - 23
    · have h23 : E = 23 := by omega
      subst h23
      rw [hm]
      simp [div_half_even_one]
    · rw [hm, if_neg he, div_half_even_one]
  have hm24 : m ≠ 2 ^ 24 := by
    have h1 : n * 2 ^ (-(E - 23)).toNat < 2 ^ (E + 1).toNat * 2 ^ (-(E - 23)).toNat :=
      Nat.mul_lt_mul_of_pos_right hnE (by positivity)
    have h2 : 2 ^ (E + 1).toNat * 2 ^ (-(E - 23)).toNat = 2 ^ 24 := by
      rw [← pow_add]; congr 1; omega
    omega
  rw [float.round_ratio_unfold neg n 1 hn0 E hE (by omega) m hm]
  simp only [if_neg hm24]
  rw [if_neg (by omega)]
  exact ⟨m, E - 23, rfl, by omega, hm'⟩

/-- The conversion of an integer in `[0, 2^24)` to `float` is exact. -/
theorem float.of_int_exact (c : Int) (h0 : 0 ≤ c) (h24 : c < 2 ^ 24) :
    ∃ m e, float.of_int c = .finite false m e ∧ (m : ℚ) * (2 : ℚ) ^ e = c := by
  obtain ⟨k, rfl⟩ := Int.eq_ofNat_of_zero_le h0
  have hd : decide ((k : Int) < 0) = false := by simp
  obtain ⟨m, e, h, he, hm⟩ := float.round_ratio_nat false k (by omega)
  refine ⟨m, e, by unfold float.of_int; rw [hd, Int.natAbs_ofNat]; exact h, ?_⟩
  rw [hm, Int.cast_natCast, Nat.cast_mul]
  by_cases he0 : e = 0
  · subst he0; simp
  · rw [two_pow_toNat_of_neg e (by omega), mul_assoc, inv_mul_cancel₀ (by positivity), mul_one]

/-- The conversion to `float` is exact on every positive integer below `2^31`
that has a 24-bit mantissa. -/
theorem float.of_int_representable (t n : Nat) (j : Int) (hn : n < 2 ^ 24)
    (ht : (t : ℚ) = (n : ℚ) * (2 : ℚ) ^ j) (ht0 : 0 < t) (ht31 : t < 2 ^ 31) :
    ∃ m e, float.of_int (t : Int) = .finite false m e ∧ (m : ℚ) * (2 : ℚ) ^ e = t := by
  have hd : decide ((t : Int) < 0) = false := by simp
  have ht1 : (1 : ℚ) ≤ t := by exact_mod_cast ht0
  have ht31q : (t : ℚ) < 2 ^ 31 := by exact_mod_cast ht31
  have hc : ((t : Nat) : ℚ) / ((1 : Nat) : ℚ) = t := by simp
  have hlo1 : (2 : ℚ) ^ (-126 : Int) ≤ 1 := by
    have : (2 : ℚ) ^ (-126 : Int) ≤ 2 ^ (0 : Int) :=
      zpow_le_zpow_right₀ (by norm_num) (by norm_num)
    simpa using this
  have hhi1 : (2 : ℚ) ^ (31 : Int) ≤ 2 ^ (127 : Int) :=
    zpow_le_zpow_right₀ (by norm_num) (by norm_num)
  have h31 : (2 : ℚ) ^ (31 : Int) = 2 ^ 31 := by norm_num
  obtain ⟨m, e, hrr, _, _, hM2, hM1, _⟩ := float.round_ratio_rounds false t 1 ht0 (by norm_num)
    (by rw [hc]; exact le_trans hlo1 ht1)
    (by rw [hc]; exact lt_of_lt_of_le (by rw [h31]; exact ht31q) hhi1)
  rw [hc] at hM2 hM1
  refine ⟨m, e, by unfold float.of_int; rw [hd, Int.natAbs_ofNat]; exact hrr, ?_⟩
  have h1 := hM2 n j hn ht.le
  have h2 := hM1 n j hn ht.ge
  rw [← ht] at h1 h2
  exact le_antisymm h1 h2

/-- Converting to `float` and back is the identity on the naturals below
`2^24`. -/
theorem float.to_int_round_ratio_nat (n : Nat) (hn : n < 2 ^ 24) :
    float.to_int (float.round_ratio false n 1) = n := by
  obtain ⟨m, e, h, he, hm⟩ := float.round_ratio_nat false n hn
  rw [h]
  have ht : float.trunc (.finite false m e) = some (n : Int) := by
    unfold float.trunc
    by_cases he0 : 0 ≤ e
    · have : e = 0 := by omega
      subst this
      simp [hm]
    · simp only [he0, if_false, Bool.false_eq_true, Option.some.injEq, Nat.cast_inj]
      rw [hm, Nat.mul_div_cancel _ (by positivity)]
  unfold float.to_int
  simp only [ht]
  rw [if_pos (by constructor <;> omega)]


/-- The float product of two positive finite floats, when the exact product is
in the normal range, is finite and within the relative error `2^-24`. -/
theorem float.mul_spec (m1 m2 : Nat) (e1 e2 : Int) (h1 : 0 < m1) (h2 : 0 < m2)
    (hlo : (2 : ℚ) ^ (-126 : Int) ≤ (m1 : ℚ) * (2 : ℚ) ^ e1 * ((m2 : ℚ) * (2 : ℚ) ^ e2))
    (hhi : (m1 : ℚ) * (2 : ℚ) ^ e1 * ((m2 : ℚ) * (2 : ℚ) ^ e2) < (2 : ℚ) ^ (127 : Int)) :
    ∃ m e, float.mul (.finite false m1 e1) (.finite false m2 e2) = .finite false m e ∧
      |(m : ℚ) * (2 : ℚ) ^ e - (m1 : ℚ) * (2 : ℚ) ^ e1 * ((m2 : ℚ) * (2 : ℚ) ^ e2)|
        ≤ (m1 : ℚ) * (2 : ℚ) ^ e1 * ((m2 : ℚ) * (2 : ℚ) ^ e2) * (2 : ℚ) ^ (-24 : Int) := by
  have h20 : (2 : ℚ) ≠ 0 := by norm_num
  have hprod : (m1 : ℚ) * (2 : ℚ) ^ e1 * ((m2 : ℚ) * (2 : ℚ) ^ e2)
      = (m1 : ℚ) * m2 * (2 : ℚ) ^ (e1 + e2) := by
    rw [zpow_add₀ h20]; ring
  unfold float.mul
  simp only [Bool.xor_false]
  by_cases he : 0 ≤ e1 + e2
  · rw [if_pos he]
    have hc : ((m1 * m2 * 2 ^ (e1 + e2).toNat : Nat) : ℚ) / ((1 : Nat) : ℚ)
        = (m1 : ℚ) * (2 : ℚ) ^ e1 * ((m2 : ℚ) * (2 : ℚ) ^ e2) := by
      rw [hprod, Nat.cast_one, div_one, Nat.cast_mul, Nat.cast_mul,
        two_pow_toNat_of_nonneg _ he]
    have := float.round_ratio_spec false (m1 * m2 * 2 ^ (e1 + e2).toNat) 1 (by positivity)
      (by norm_num) (by rw [hc]; exact hlo) (by rw [hc]; exact hhi)
    rw [hc] at this
    exact this
  · rw [if_neg he]
    have hc : ((m1 * m2 : Nat) : ℚ) / ((2 ^ (-(e1 + e2)).toNat : Nat) : ℚ)
        = (m1 : ℚ) * (2 : ℚ) ^ e1 * ((m2 : ℚ) * (2 : ℚ) ^ e2) := by
      rw [hprod, two_pow_toNat_of_neg _ (by omega), Nat.cast_mul, div_inv_eq_mul]
    have := float.round_ratio_spec false (m1 * m2) (2 ^ (-(e1 + e2)).toNat) (by positivity)
      (by positivity) (by rw [hc]; exact hlo) (by rw [hc]; exact hhi)
    rw [hc] at this
    exact this

/-- The float quotient of two positive finite floats, when the exact quotient
is in the normal range, is finite and within the relative error `2^-24`. -/
theorem float.div_spec (m1 m2 : Nat) (e1 e2 : Int) (h1 : 0 < m1) (h2 : 0 < m2)
    (hlo : (2 : ℚ) ^ (-126 : Int) ≤ (m1 : ℚ) * (2 : ℚ) ^ e1 / ((m2 : ℚ) * (2 : ℚ) ^ e2))
    (hhi : (m1 : ℚ) * (2 : ℚ) ^ e1 / ((m2 : ℚ) * (2 : ℚ) ^ e2) < (2 : ℚ) ^ (127 : Int)) :
    ∃ m e, float.div (.finite false m1 e1) (.finite false m2 e2) = .finite false m e ∧
      |(m : ℚ) * (2 : ℚ) ^ e - (m1 : ℚ) * (2 : ℚ) ^ e1 / ((m2 : ℚ) * (2 : ℚ) ^ e2)|
        ≤ (m1 : ℚ) * (2 : ℚ) ^ e1 / ((m2 : ℚ) * (2 : ℚ) ^ e2) * (2 : ℚ) ^ (-24 : Int) := by
  have h20 : (2 : ℚ) ≠ 0 := by norm_num
  have hm2 : (m2 : ℚ) ≠ 0 := by positivity
  have hquot : (m1 : ℚ) * (2 : ℚ) ^ e1 / ((m2 : ℚ) * (2 : ℚ) ^ e2)
      = (m1 : ℚ) * (2 : ℚ) ^ (e1 - e2) / m2 := by
    rw [zpow_sub₀ h20]; field_simp; ring
  unfold float.div
  simp only [Bool.xor_false]
  rw [if_neg (by omega)]
  by_cases he : 0 ≤ e1 - e2
  · rw [if_pos he]
    have hc : ((m1 * 2 ^ (e1 - e2).toNat : Nat) : ℚ) / ((m2 : Nat) : ℚ)
        = (m1 : ℚ) * (2 : ℚ) ^ e1 / ((m2 : ℚ) * (2 : ℚ) ^ e2) := by
      rw [hquot, Nat.cast_mul, two_pow_toNat_of_nonneg _ he]
    have := float.round_ratio_spec false (m1 * 2 ^ (e1 - e2).toNat) m2 (by positivity)
      h2 (by rw [hc]; exact hlo) (by rw [hc]; exact hhi)
    rw [hc] at this
    exact this
  · rw [if_neg he]
    have hc : ((m1 : Nat) : ℚ) / ((m2 * 2 ^ (-(e1 - e2)).toNat : Nat) : ℚ)
        = (m1 : ℚ) * (2 : ℚ) ^ e1 / ((m2 : ℚ) * (2 : ℚ) ^ e2) := by
      rw [hquot, Nat.cast_mul, two_pow_toNat_of_neg _ (by omega)]
      field_simp
    have := float.round_ratio_spec false m1 (m2 * 2 ^ (-(e1 - e2)).toNat) h1
      (by positivity) (by rw [hc]; exact hlo) (by rw [hc]; exact hhi)
    rw [hc] at this
    exact this

/-- The float product of two positive finite floats, when the exact product is
in the normal range, is the exact product rounded to nearest. -/
theorem float.mul_rounds (m1 m2 : Nat) (e1 e2 : Int) (h1 : 0 < m1) (h2 : 0 < m2)
    (hlo : (2 : ℚ) ^ (-126 : Int) ≤ (m1 : ℚ) * (2 : ℚ) ^ e1 * ((m2 : ℚ) * (2 : ℚ) ^ e2))
    (hhi : (m1 : ℚ) * (2 : ℚ) ^ e1 * ((m2 : ℚ) * (2 : ℚ) ^ e2) < (2 : ℚ) ^ (127 : Int)) :
    ∃ m e, float.mul (.finite false m1 e1) (.finite false m2 e2) = .finite false m e ∧
      float.rounds m e ((m1 : ℚ) * (2 : ℚ) ^ e1 * ((m2 : ℚ) * (2 : ℚ) ^ e2)) := by
  have h20 : (2 : ℚ) ≠ 0 := by norm_num
  have hprod : (m1 : ℚ) * (2 : ℚ) ^ e1 * ((m2 : ℚ) * (2 : ℚ) ^ e2)
      = (m1 : ℚ) * m2 * (2 : ℚ) ^ (e1 + e2) := by
    rw [zpow_add₀ h20]; ring
  unfold float.mul
  simp only [Bool.xor_false]
  by_cases he : 0 ≤ e1 + e2
  · rw [if_pos he]
    have hc : ((m1 * m2 * 2 ^ (e1 + e2).toNat : Nat) : ℚ) / ((1 : Nat) : ℚ)
        = (m1 : ℚ) * (2 : ℚ) ^ e1 * ((m2 : ℚ) * (2 : ℚ) ^ e2) := by
      rw [hprod, Nat.cast_one, div_one, Nat.cast_mul, Nat.cast_mul,
        two_pow_toNat_of_nonneg _ he]
    have := float.round_ratio_rounds false (m1 * m2 * 2 ^ (e1 + e2).toNat) 1 (by positivity)
      (by norm_num) (by rw [hc]; exact hlo) (by rw [hc]; exact hhi)
    rw [hc] at this
    exact this
  · rw [if_neg he]
    have hc : ((m1 * m2 : Nat) : ℚ) / ((2 ^ (-(e1 + e2)).toNat : Nat) : ℚ)
        = (m1 : ℚ) * (2 : ℚ) ^ e1 * ((m2 : ℚ) * (2 : ℚ) ^ e2) := by
      rw [hprod, two_pow_toNat_of_neg _ (by omega), Nat.cast_mul, div_inv_eq_mul]
    have := float.round_ratio_rounds false (m1 * m2) (2 ^ (-(e1 + e2)).toNat) (by positivity)
      (by positivity) (by rw [hc]; exact hlo) (by rw [hc]; exact hhi)
    rw [hc] at this
    exact this

/-- The float quotient of two positive finite floats, when the exact quotient
is in the normal range, is the exact quotient rounded to nearest. -/
theorem float.div_rounds (m1 m2 : Nat) (e1 e2 : Int) (h1 : 0 < m1) (h2 : 0 < m2)
    (hlo : (2 : ℚ) ^ (-126 : Int) ≤ (m1 : ℚ) * (2 : ℚ) ^ e1 / ((m2 : ℚ) * (2 : ℚ) ^ e2))
    (hhi : (m1 : ℚ) * (2 : ℚ) ^ e1 / ((m2 : ℚ) * (2 : ℚ) ^ e2) < (2 : ℚ) ^ (127 : Int)) :
    ∃ m e, float.div (.finite false m1 e1) (.finite false m2 e2) = .finite false m e ∧
      float.rounds m e ((m1 : ℚ) * (2 : ℚ) ^ e1 / ((m2 : ℚ) * (2 : ℚ) ^ e2)) := by
  have h20 : (2 : ℚ) ≠ 0 := by norm_num
  have hm2 : (m2 : ℚ) ≠ 0 := by positivity
  have hquot : (m1 : ℚ) * (2 : ℚ) ^ e1 / ((m2 : ℚ) * (2 : ℚ) ^ e2)
      = (m1 : ℚ) * (2 : ℚ) ^ (e1 - e2) / m2 := by
    rw [zpow_sub₀ h20]; field_simp; ring
  unfold float.div
  simp only [Bool.xor_false]
  rw [if_neg (by omega)]
  by_cases he : 0 ≤ e1 - e2
  · rw [if_pos he]
    have hc : ((m1 * 2 ^ (e1 - e2).toNat : Nat) : ℚ) / ((m2 : Nat) : ℚ)
        = (m1 : ℚ) * (2 : ℚ) ^ e1 / ((m2 : ℚ) * (2 : ℚ) ^ e2) := by
      rw [hquot, Nat.cast_mul, two_pow_toNat_of_nonneg _ he]
    have := float.round_ratio_rounds false (m1 * 2 ^ (e1 - e2).toNat) m2 (by positivity)
      h2 (by rw [hc]; exact hlo) (by rw [hc]; exact hhi)
    rw [hc] at this
    exact this
  · rw [if_neg he]
    have hc : ((m1 : Nat) : ℚ) / ((m2 * 2 ^ (-(e1 - e2)).toNat : Nat) : ℚ)
        = (m1 : ℚ) * (2 : ℚ) ^ e1 / ((m2 : ℚ) * (2 : ℚ) ^ e2) := by
      rw [hquot, Nat.cast_mul, two_pow_toNat_of_neg _ (by omega)]
      field_simp
    have := float.round_ratio_rounds false m1 (m2 * 2 ^ (-(e1 - e2)).toNat) h1
      (by positivity) (by rw [hc]; exact hlo) (by rw [hc]; exact hhi)
    rw [hc] at this
    exact this

/-- The snapping `std::round` followed by the conversion to `int`, on a finite
float below `2^23` that is not negative, gives an integer within one half. -/
theorem float.to_int_round (m : Nat) (e : Int)
    (hv : (m : ℚ) * (2 : ℚ) ^ e < (2 : ℚ) ^ (23 : Int)) :
    ∃ R : Nat, float.to_int (float.round (.finite false m e)) = (R : Int) ∧
      |(R : ℚ) - (m : ℚ) * (2 : ℚ) ^ e| ≤ 1 / 2 := by
  have h223 : (2 : ℚ) ^ (23 : Int) = ((2 ^ 23 : Nat) : ℚ) := by norm_num
  by_cases he : 0 ≤ e
  · simp only [float.round, he, if_true]
    have hlt : m * 2 ^ e.toNat < 2 ^ 23 := by
      have : ((m * 2 ^ e.toNat : Nat) : ℚ) < ((2 ^ 23 : Nat) : ℚ) := by
        rw [Nat.cast_mul, two_pow_toNat_of_nonneg _ he, ← h223]; exact hv
      exact_mod_cast this
    refine ⟨m * 2 ^ e.toNat, ?_, ?_⟩
    · unfold float.to_int float.trunc
      simp only [he, if_true, Bool.false_eq_true, if_false]
      rw [if_pos (by constructor <;> omega)]
    · rw [Nat.cast_mul, two_pow_toNat_of_nonneg _ he, sub_self, abs_zero]; norm_num
  · simp only [float.round, he, if_false]
    obtain ⟨d, hd⟩ : ∃ d : Nat, d = 2 ^ (-e).toNat := ⟨_, rfl⟩
    rw [← hd]
    have hdpos : 0 < d := by rw [hd]; positivity
    have hdq : (0 : ℚ) < d := by exact_mod_cast hdpos
    have hval : (m : ℚ) * (2 : ℚ) ^ e = (m : ℚ) / d := by
      rw [hd, two_pow_toNat_of_neg _ (by omega), div_inv_eq_mul]
    have hdm : (m : ℚ) = d * (m / d : Nat) + (m % d : Nat) := by
      exact_mod_cast (Nat.div_add_mod m d).symm
    have hr : m % d < d := Nat.mod_lt m hdpos
    have hx : (m : ℚ) / d = (m / d : Nat) + ((m % d : Nat) : ℚ) / d := by
      rw [hdm]; field_simp; ring
    have hr0 : (0 : ℚ) ≤ ((m % d : Nat) : ℚ) / d := by positivity
    have hr1 : ((m % d : Nat) : ℚ) / d < 1 := by
      rw [div_lt_iff₀ hdq, one_mul]; exact_mod_cast hr
    have hq23 : m / d < 2 ^ 23 := by
      have : ((m / d : Nat) : ℚ) < ((2 ^ 23 : Nat) : ℚ) := by
        rw [← h223]; rw [hval, hx] at hv; linarith
      exact_mod_cast this
    by_cases hh : d ≤ 2 * (m % d)
    · rw [if_pos hh]
      refine ⟨m / d + 1, float.to_int_round_ratio_nat _ (by omega), ?_⟩
      have hhq : (d : ℚ) ≤ 2 * ((m % d : Nat) : ℚ) := by exact_mod_cast hh
      have : (1 : ℚ) / 2 ≤ ((m % d : Nat) : ℚ) / d := by
        rw [le_div_iff₀ hdq]; linarith
      rw [hval, hx, abs_le]; push_cast
      constructor <;> linarith
    · rw [if_neg hh]
      refine ⟨m / d, float.to_int_round_ratio_nat _ (by omega), ?_⟩
      have hhq : 2 * ((m % d : Nat) : ℚ) < d := by exact_mod_cast not_le.mp hh
      have : ((m % d : Nat) : ℚ) / d < 1 / 2 := by
        rw [div_lt_iff₀ hdq]; linarith
      rw [hval, hx, abs_le]
      constructor <;> linarith


/-- The snapping `std::round` followed by the conversion to `int`, on a finite
float below `2^31` with a 24-bit mantissa that is not negative: the integer
`R` with `x - 1/2 < R ≤ x + 1/2`. -/
theorem float.to_int_round_wide (m : Nat) (e : Int) (hm : m < 2 ^ 24)
    (hv : (m : ℚ) * (2 : ℚ) ^ e < (2 : ℚ) ^ (31 : Int)) :
    ∃ R : Nat, float.to_int (float.round (.finite false m e)) = (R : Int) ∧
      (m : ℚ) * (2 : ℚ) ^ e - 1 / 2 < (R : ℚ) ∧ (R : ℚ) ≤ (m : ℚ) * (2 : ℚ) ^ e + 1 / 2 := by
  have h231 : (2 : ℚ) ^ (31 : Int) = ((2 ^ 31 : Nat) : ℚ) := by norm_num
  by_cases he : 0 ≤ e
  · simp only [float.round, he, if_true]
    have hlt : m * 2 ^ e.toNat < 2 ^ 31 := by
      have : ((m * 2 ^ e.toNat : Nat) : ℚ) < ((2 ^ 31 : Nat) : ℚ) := by
        rw [Nat.cast_mul, two_pow_toNat_of_nonneg _ he, ← h231]; exact hv
      exact_mod_cast this
    refine ⟨m * 2 ^ e.toNat, ?_, ?_, ?_⟩
    · unfold float.to_int float.trunc
      simp only [he, if_true, Bool.false_eq_true, if_false]
      rw [if_pos (by constructor <;> omega)]
    · rw [Nat.cast_mul, two_pow_toNat_of_nonneg _ he]; linarith
    · rw [Nat.cast_mul, two_pow_toNat_of_nonneg _ he]; linarith
  · simp only [float.round, he, if_false]
    obtain ⟨d, hd⟩ : ∃ d : Nat, d = 2 ^ (-e).toNat := ⟨_, rfl⟩
    rw [← hd]
    have hd2 : 2 ≤ d := by
      rw [hd]
      have : (-e).toNat = ((-e).toNat - 1) + 1 := by omega
      rw [this, pow_succ]
      have : 0 < 2 ^ ((-e).toNat - 1) := by positivity
      omega
    have hdpos : 0 < d := by omega
    have hdq : (0 : ℚ) < d := by exact_mod_cast hdpos
    have hval : (m : ℚ) * (2 : ℚ) ^ e = (m : ℚ) / d := by
      rw [hd, two_pow_toNat_of_neg _ (by omega), div_inv_eq_mul]
    have hdm : (m : ℚ) = d * (m / d : Nat) + (m % d : Nat) := by
      exact_mod_cast (Nat.div_add_mod m d).symm
    have hr : m % d < d := Nat.mod_lt m hdpos
    have hx : (m : ℚ) / d = (m / d : Nat) + ((m % d : Nat) : ℚ) / d := by
      rw [hdm]; field_simp; ring
    have hr0 : (0 : ℚ) ≤ ((m % d : Nat) : ℚ) / d := by positivity
    have hr1 : ((m % d : Nat) : ℚ) / d < 1 := by
      rw [div_lt_iff₀ hdq, one_mul]; exact_mod_cast hr
    have hq23 : m / d < 2 ^ 23 := by
      have h1 : m / d ≤ m / 2 := Nat.div_le_div_left hd2 (by norm_num)
      omega
    by_cases hh : d ≤ 2 * (m % d)
    · rw [if_pos hh]
      refine ⟨m / d + 1, float.to_int_round_ratio_nat _ (by omega), ?_, ?_⟩
      · rw [hval, hx]; push_cast; linarith
      · have hhq : (d : ℚ) ≤ 2 * ((m % d : Nat) : ℚ) := by exact_mod_cast hh
        have : (1 : ℚ) / 2 ≤ ((m % d : Nat) : ℚ) / d := by
          rw [le_div_iff₀ hdq]; linarith
        rw [hval, hx]; push_cast
        linarith
    · rw [if_neg hh]
      refine ⟨m / d, float.to_int_round_ratio_nat _ (by omega), ?_, ?_⟩
      · have hhq : 2 * ((m % d : Nat) : ℚ) < d := by exact_mod_cast not_le.mp hh
        have : ((m % d : Nat) : ℚ) / d < 1 / 2 := by
          rw [div_lt_iff₀ hdq]; linarith
        rw [hval, hx]
        linarith
      · rw [hval, hx]
        linarith


/-- The offset `set_slider_position` stores for a float whose integer part is
`t`, with `0 ≤ t < 2^31`. -/
theorem float.to_unsigned_of_trunc (x : float) (t : Int) (h : float.trunc x = some t)
    (h0 : 0 ≤ t) (h31 : t < 2 ^ 31) : gui2.to_int (float.to_unsigned x) = t := by
  simp only [float.to_unsigned, h]
  rw [if_pos (by constructor <;> omega)]
  unfold gui2.to_int
  omega

/-- The position recovered from the offset 0 is 0. -/
theorem float.recover_zero (m : Nat) (e : Int) (hm : 0 < m) :
    float.to_int (float.round (float.div (float.of_int 0) (.finite false m e))) = 0 := by
  have h0 : float.of_int 0 = .finite false 0 (-149) := by decide
  have hd : float.div (.finite false 0 (-149)) (.finite false m e) = .finite false 0 (-149) := by
    simp only [float.div]
    rw [if_neg (Nat.pos_iff_ne_zero.mp hm)]
    split_ifs <;> simp [float.round_ratio]
  rw [h0, hd]
  decide

/-- Round trip through the pixel offset in binary32. For a position `P` that
is not negative and a finite step of at least one pixel, with `P` times the
step below `2^21`, the offset `set_slider_position` computes, divided by the
step and snapped, is `P` or `P - 1`. -/
theorem float.offset_round_trip (P : Int) (m : Nat) (e : Int) (hP : 0 ≤ P)
    (hX : 1 ≤ (m : ℚ) * (2 : ℚ) ^ e)
    (hPX : (P : ℚ) * ((m : ℚ) * (2 : ℚ) ^ e) < 2 ^ 21) :
    P - 1 ≤ float.to_int (float.round (float.div
        (float.of_int (gui2.to_int (float.to_unsigned
          (float.mul (float.of_int P) (.finite false m e)))))
        (.finite false m e))) ∧
      float.to_int (float.round (float.div
        (float.of_int (gui2.to_int (float.to_unsigned
          (float.mul (float.of_int P) (.finite false m e)))))
        (.finite false m e))) ≤ P := by
  obtain ⟨X, hXdef⟩ : ∃ X : ℚ, X = (m : ℚ) * (2 : ℚ) ^ e := ⟨_, rfl⟩
  rw [← hXdef] at hX hPX
  have hXpos : (0 : ℚ) < X := by linarith
  have hm : 0 < m := by
    rcases Nat.eq_zero_or_pos m with h | h
    · subst h; simp at hXdef; linarith
    · exact h
  have hPq : (0 : ℚ) ≤ P := by exact_mod_cast hP
  have hPle : (P : ℚ) ≤ P * X := le_mul_of_one_le_right hPq hX
  have hP21 : (P : ℚ) < 2 ^ 21 := by linarith
  have hP21z : P < 2 ^ 21 := by exact_mod_cast hP21
  have hpow1 : (2 : ℚ) ^ (-126 : Int) ≤ 2 ^ (-21 : Int) :=
    zpow_le_zpow_right₀ (by norm_num) (by norm_num)
  have hpow2 : (2 : ℚ) ^ (22 : Int) ≤ 2 ^ (127 : Int) :=
    zpow_le_zpow_right₀ (by norm_num) (by norm_num)
  have hε : (2 : ℚ) ^ (-24 : Int) = 1 / 16777216 := by norm_num
  have h21 : (2 : ℚ) ^ (-21 : Int) = 1 / 2097152 := by norm_num
  have h22 : (2 : ℚ) ^ (22 : Int) = 4194304 := by norm_num
  have h23 : (2 : ℚ) ^ (23 : Int) = 8388608 := by norm_num
  rw [h21] at hpow1
  rw [h22] at hpow2
  have hlo1 : (2 : ℚ) ^ (-126 : Int) ≤ 1 := le_trans hpow1 (by norm_num)
  by_cases hP0 : P = 0
  · subst hP0
    have h0 : float.of_int 0 = .finite false 0 (-149) := by decide
    have hmul : float.mul (.finite false 0 (-149)) (.finite false m e)
        = .finite false 0 (-149) := by
      simp only [float.mul]
      split_ifs <;> simp [float.round_ratio]
    have hO : gui2.to_int (float.to_unsigned (.finite false 0 (-149))) = 0 := by decide
    rw [h0, hmul, hO, float.recover_zero m e hm]
    omega
  have hP1 : 1 ≤ P := by omega
  have hP1q : (1 : ℚ) ≤ P := by exact_mod_cast hP1
  obtain ⟨mP, eP, hofP, hvP⟩ := float.of_int_exact P hP (by omega)
  have hmP : 0 < mP := by
    rcases Nat.eq_zero_or_pos mP with h | h
    · subst h; simp at hvP; linarith
    · exact h
  have hPXge : (1 : ℚ) ≤ P * X := by linarith
  have hPXlt : (P : ℚ) * X < 4194304 := by linarith
  obtain ⟨m3, e3, hmul, herr3⟩ := float.mul_spec mP m eP e hmP hm
    (by rw [hvP, ← hXdef]; exact le_trans hlo1 hPXge)
    (by rw [hvP, ← hXdef]; exact lt_of_lt_of_le hPXlt hpow2)
  rw [hvP, ← hXdef, hε] at herr3
  obtain ⟨t, htr, ht1, ht2⟩ := float.trunc_floor m3 e3
  rw [float.to_rat_finite] at ht1 ht2
  simp only [Bool.false_eq_true, if_false, one_mul] at ht1 ht2
  obtain ⟨h3a, h3b⟩ := abs_le.mp herr3
  have ht22 : (t : ℚ) < 2 ^ 22 := by linarith
  have ht22n : t < 2 ^ 22 := by exact_mod_cast ht22
  have hO : gui2.to_int (float.to_unsigned (.finite false m3 e3)) = (t : Int) :=
    float.to_unsigned_of_trunc _ _ htr (by positivity) (by omega)
  rw [hofP, hmul, hO]
  by_cases ht0 : t = 0
  · subst ht0
    have hPlt : (P : ℚ) < 2 := by
      simp only [Nat.cast_zero, zero_add] at ht2
      linarith
    have hP2 : P < 2 := by exact_mod_cast hPlt
    rw [Nat.cast_zero, float.recover_zero m e hm]
    omega
  have ht1n : 1 ≤ t := Nat.one_le_iff_ne_zero.mpr ht0
  have ht1q : (1 : ℚ) ≤ t := by exact_mod_cast ht1n
  obtain ⟨mO, eO, hofO, hvO⟩ := float.of_int_exact (t : Int) (by positivity) (by omega)
  rw [Int.cast_natCast] at hvO
  have hmO : 0 < mO := by
    rcases Nat.eq_zero_or_pos mO with h | h
    · subst h; simp at hvO; linarith
    · exact h
  have hXle : X ≤ P * X := le_mul_of_one_le_left hXpos.le hP1q
  have hX21 : X < 2097152 := by linarith
  have hu_hi : (t : ℚ) / X ≤ P * (1 + 1 / 16777216) := by
    rw [div_le_iff₀ hXpos]
    have e1 : (P : ℚ) * (1 + 1 / 16777216) * X = P * X + P * X * (1 / 16777216) := by ring
    rw [e1]; linarith
  have hu_lo : (P : ℚ) * (1 - 1 / 16777216) - 1 < (t : ℚ) / X := by
    rw [lt_div_iff₀ hXpos]
    have e1 : ((P : ℚ) * (1 - 1 / 16777216) - 1) * X
        = P * X - P * X * (1 / 16777216) - X := by ring
    rw [e1]; linarith
  have hu_ge : (1 : ℚ) / 2097152 ≤ (t : ℚ) / X := by
    rw [le_div_iff₀ hXpos]; linarith
  have hu_le : (t : ℚ) / X ≤ t := div_le_self (by positivity) hX
  have hu_pos : (0 : ℚ) < (t : ℚ) / X := by positivity
  obtain ⟨m4, e4, hdiv, herr4⟩ := float.div_spec mO m eO e hmO hm
    (by rw [hvO, ← hXdef]; exact le_trans hpow1 hu_ge)
    (by rw [hvO, ← hXdef]; exact lt_of_lt_of_le (by linarith) hpow2)
  rw [hvO, ← hXdef, hε] at herr4
  obtain ⟨h4a, h4b⟩ := abs_le.mp herr4
  obtain ⟨R, hR, hRerr⟩ := float.to_int_round m4 e4 (by rw [h23]; linarith)
  obtain ⟨hRa, hRb⟩ := abs_le.mp hRerr
  rw [hofO, hdiv, hR]
  constructor
  · have : (P : ℚ) - 2 < (R : ℚ) := by linarith
    have h' : P - 2 < (R : Int) := by exact_mod_cast this
    omega
  · have : (R : ℚ) < (P : ℚ) + 1 := by linarith
    have h' : (R : Int) < P + 1 := by exact_mod_cast this
    omega


/-- A float whose value is at least 1 is finite with the sign bit clear. -/
theorem float.finite_of_one_le (x : float) (h : 1 ≤ float.to_rat x) :
    ∃ m e, x = .finite false m e ∧ float.to_rat x = (m : ℚ) * (2 : ℚ) ^ e := by
  cases x with
  | finite neg m e =>
    cases neg with
    | false => exact ⟨m, e, rfl, by rw [float.to_rat_finite]; simp⟩
    | true =>
      rw [float.to_rat_finite] at h
      have : (0 : ℚ) ≤ (m : ℚ) * (2 : ℚ) ^ e := by positivity
      simp only [if_true] at h
      linarith
  | inf neg => simp [float.to_rat] at h; linarith
  | nan => simp [float.to_rat] at h; linarith

/-- A float whose value is positive is finite with the sign bit clear. -/
theorem float.finite_of_pos (x : float) (h : 0 < float.to_rat x) :
    ∃ m e, x = .finite false m e ∧ float.to_rat x = (m : ℚ) * (2 : ℚ) ^ e := by
  cases x with
  | finite neg m e =>
    cases neg with
    | false => exact ⟨m, e, rfl, by rw [float.to_rat_finite]; simp⟩
    | true =>
      rw [float.to_rat_finite] at h
      have : (0 : ℚ) ≤ (m : ℚ) * (2 : ℚ) ^ e := by positivity
      simp only [if_true] at h
      linarith
  | inf neg => simp [float.to_rat] at h
  | nan => simp [float.to_rat] at h

/-- Round trip through the pixel offset in binary32. For a position `P` with
`0 ≤ P < 2^24` and a finite step of at least 2/3 of a pixel, with `P` times the
step at most `2^31 - 128` (the largest float below `2^31`), the offset
`set_slider_position` computes, divided by the step and snapped, is within one
of `P`. -/
theorem float.offset_round_trip_wide (P : Int) (m : Nat) (e : Int) (hP : 0 ≤ P)
    (hP24 : P < 2 ^ 24)
    (hX : 2 / 3 ≤ (m : ℚ) * (2 : ℚ) ^ e)
    (hPX : (P : ℚ) * ((m : ℚ) * (2 : ℚ) ^ e) ≤ 2 ^ 31 - 128) :
    P - 1 ≤ float.to_int (float.round (float.div
        (float.of_int (gui2.to_int (float.to_unsigned
          (float.mul (float.of_int P) (.finite false m e)))))
        (.finite false m e))) ∧
      float.to_int (float.round (float.div
        (float.of_int (gui2.to_int (float.to_unsigned
          (float.mul (float.of_int P) (.finite false m e)))))
        (.finite false m e))) ≤ P + 1 := by
  obtain ⟨X, hXdef⟩ : ∃ X : ℚ, X = (m : ℚ) * (2 : ℚ) ^ e := ⟨_, rfl⟩
  rw [← hXdef] at hX hPX
  have hXpos : (0 : ℚ) < X := by linarith
  have hm : 0 < m := by
    rcases Nat.eq_zero_or_pos m with h | h
    · subst h; simp at hXdef; linarith
    · exact h
  have hPq : (0 : ℚ) ≤ P := by exact_mod_cast hP
  have hP24q : (P : ℚ) ≤ 16777215 := by
    have : P ≤ 16777215 := by omega
    exact_mod_cast this
  have h12 : (1 : ℚ) < 2 := by norm_num
  have hpowlo : (2 : ℚ) ^ (-126 : Int) ≤ 1 / 4294967296 := by
    have : (2 : ℚ) ^ (-126 : Int) ≤ 2 ^ (-32 : Int) :=
      zpow_le_zpow_right₀ (by norm_num) (by norm_num)
    have e1 : (2 : ℚ) ^ (-32 : Int) = 1 / 4294967296 := by norm_num
    rw [e1] at this
    exact this
  have hpowhi : (4294967296 : ℚ) ≤ 2 ^ (127 : Int) := by
    have : (2 : ℚ) ^ (32 : Int) ≤ 2 ^ (127 : Int) :=
      zpow_le_zpow_right₀ (by norm_num) (by norm_num)
    have e1 : (2 : ℚ) ^ (32 : Int) = 4294967296 := by norm_num
    rw [e1] at this
    exact this
  have hε : (2 : ℚ) ^ (-24 : Int) = 1 / 16777216 := by norm_num
  by_cases hP0 : P = 0
  · subst hP0
    have h0 : float.of_int 0 = .finite false 0 (-149) := by decide
    have hmul : float.mul (.finite false 0 (-149)) (.finite false m e)
        = .finite false 0 (-149) := by
      simp only [float.mul]
      split_ifs <;> simp [float.round_ratio]
    have hO : gui2.to_int (float.to_unsigned (.finite false 0 (-149))) = 0 := by decide
    rw [h0, hmul, hO, float.recover_zero m e hm]
    omega
  have hP1 : 1 ≤ P := by omega
  have hP1q : (1 : ℚ) ≤ P := by exact_mod_cast hP1
  obtain ⟨p, hp⟩ : ∃ p : Nat, (p : Int) = P := ⟨P.toNat, by omega⟩
  have hpq : (p : ℚ) = (P : ℚ) := by rw [← hp]; simp
  obtain ⟨mP, eP, hofP, hvP⟩ := float.of_int_exact P hP hP24
  have hmP : 0 < mP := by
    rcases Nat.eq_zero_or_pos mP with h | h
    · subst h; simp at hvP; linarith
    · exact h
  have hXle : X ≤ P * X := le_mul_of_one_le_left hXpos.le hP1q
  have hPXpos : (0 : ℚ) < P * X := by linarith
  obtain ⟨m3, e3, hmul, hr3⟩ := float.mul_rounds mP m eP e hmP hm
    (by rw [hvP, ← hXdef]; exact le_trans hpowlo (by linarith))
    (by rw [hvP, ← hXdef]; exact lt_of_lt_of_le (by linarith) hpowhi)
  rw [hvP, ← hXdef, float.rounds, hε] at hr3
  obtain ⟨hm3lt, herr3, hM2_3, hM1_3, -⟩ := hr3
  obtain ⟨h3a, h3b⟩ := abs_le.mp herr3
  have hv3hi : (m3 : ℚ) * (2 : ℚ) ^ e3 ≤ 2147483520 := by
    have e1 : ((16777215 : Nat) : ℚ) * (2 : ℚ) ^ (7 : Int) = 2147483520 := by norm_num
    have := hM2_3 16777215 7 (by norm_num) (by rw [e1]; linarith)
    rw [e1] at this
    exact this
  obtain ⟨t, htr, ht1, ht2⟩ := float.trunc_floor m3 e3
  rw [float.to_rat_finite] at ht1 ht2
  simp only [Bool.false_eq_true, if_false, one_mul] at ht1 ht2
  have ht31 : (t : ℚ) < 2147483648 := by linarith
  have ht31n : t < 2 ^ 31 := by exact_mod_cast ht31
  have hO : gui2.to_int (float.to_unsigned (.finite false m3 e3)) = (t : Int) :=
    float.to_unsigned_of_trunc _ _ htr (by positivity) (by omega)
  rw [hofP, hmul, hO]
  -- the offset is representable, and it is above (P - 3/2) steps
  have hkey : (∃ (n : Nat) (j : Int), n < 2 ^ 24 ∧ (t : ℚ) = (n : ℚ) * (2 : ℚ) ^ j) ∧
      (P : ℚ) * X - 3 / 2 * X < t := by
    by_cases hreg : (P : ℚ) * X < 16777216
    · obtain ⟨k, hk⟩ : ∃ k : Nat, k = ⌊(P : ℚ) * X⌋₊ := ⟨_, rfl⟩
      have hk1 : (k : ℚ) ≤ P * X := by rw [hk]; exact Nat.floor_le hPXpos.le
      have hk2 : (P : ℚ) * X < k + 1 := by rw [hk]; exact Nat.lt_floor_add_one _
      have hk24 : k < 2 ^ 24 := by
        have : (k : ℚ) < ((2 ^ 24 : Nat) : ℚ) := by
          have e1 : ((2 ^ 24 : Nat) : ℚ) = 16777216 := by norm_num
          rw [e1]; linarith
        exact_mod_cast this
      have hkv : (k : ℚ) ≤ (m3 : ℚ) * (2 : ℚ) ^ e3 := by
        have := hM1_3 k 0 hk24 (by simpa using hk1)
        simpa using this
      have hkt : k ≤ t := by
        have : (k : ℚ) < (t : ℚ) + 1 := by linarith
        have : k < t + 1 := by exact_mod_cast this
        omega
      have hktq : (k : ℚ) ≤ t := by exact_mod_cast hkt
      have hv24 : (m3 : ℚ) * (2 : ℚ) ^ e3 ≤ 16777216 := by
        have e1 : ((1 : Nat) : ℚ) * (2 : ℚ) ^ (24 : Int) = 16777216 := by norm_num
        have := hM2_3 1 24 (by norm_num) (by rw [e1]; linarith)
        rw [e1] at this
        exact this
      have ht24 : t ≤ 2 ^ 24 := by
        have : (t : ℚ) ≤ ((2 ^ 24 : Nat) : ℚ) := by
          have e1 : ((2 ^ 24 : Nat) : ℚ) = 16777216 := by norm_num
          rw [e1]; linarith
        exact_mod_cast this
      refine ⟨?_, by linarith⟩
      by_cases htlt : t < 2 ^ 24
      · exact ⟨t, 0, htlt, by simp⟩
      · have : t = 2 ^ 24 := by omega
        exact ⟨1, 24, by norm_num, by rw [this]; norm_num⟩
    · have hreg1 : (16777216 : ℚ) ≤ P * X := not_lt.mp hreg
      have hv24 : (16777216 : ℚ) ≤ (m3 : ℚ) * (2 : ℚ) ^ e3 := by
        have e1 : ((1 : Nat) : ℚ) * (2 : ℚ) ^ (24 : Int) = 16777216 := by norm_num
        have := hM1_3 1 24 (by norm_num) (by rw [e1]; exact hreg1)
        rw [e1] at this
        exact this
      have he3 : 0 ≤ e3 := by
        by_contra hcon
        have h1 : (2 : ℚ) ^ e3 ≤ 2 ^ (0 : Int) := zpow_le_zpow_right₀ h12.le (by omega)
        rw [zpow_zero] at h1
        have h2 : (m3 : ℚ) * (2 : ℚ) ^ e3 ≤ m3 * 1 :=
          mul_le_mul_of_nonneg_left h1 (by positivity)
        have h3 : (m3 : ℚ) < ((2 ^ 24 : Nat) : ℚ) := by exact_mod_cast hm3lt
        have e1 : ((2 ^ 24 : Nat) : ℚ) = 16777216 := by norm_num
        rw [e1] at h3
        linarith
      have hnat : (m3 : ℚ) * (2 : ℚ) ^ e3 = ((m3 * 2 ^ e3.toNat : Nat) : ℚ) := by
        rw [Nat.cast_mul, two_pow_toNat_of_nonneg _ he3]
      have hteq : t = m3 * 2 ^ e3.toNat := by
        rw [hnat] at ht1 ht2
        have a1 : t ≤ m3 * 2 ^ e3.toNat := by exact_mod_cast ht1
        have a2 : m3 * 2 ^ e3.toNat < t + 1 := by exact_mod_cast ht2
        omega
      have htv : (t : ℚ) = (m3 : ℚ) * (2 : ℚ) ^ e3 := by rw [hnat, hteq]
      refine ⟨⟨m3, e3, hm3lt, htv⟩, ?_⟩
      rw [htv]
      have e1 : (P : ℚ) * X * (1 / 16777216) = P * (1 / 16777216) * X := by ring
      have h4 : (P : ℚ) * (1 / 16777216) * X ≤ 1 * X :=
        mul_le_mul_of_nonneg_right (by linarith) hXpos.le
      linarith
  obtain ⟨⟨n, j, hn, htrep⟩, hlow⟩ := hkey
  by_cases ht0 : t = 0
  · subst ht0
    have hPlt : (P : ℚ) < 3 / 2 := by
      have e1 : (P : ℚ) * X - 3 / 2 * X = (P - 3 / 2) * X := by ring
      rw [e1, Nat.cast_zero] at hlow
      by_contra hcon
      have : 0 ≤ ((P : ℚ) - 3 / 2) * X := mul_nonneg (by linarith) hXpos.le
      linarith
    have hP2 : P < 2 := by
      have : (P : ℚ) < 2 := by linarith
      exact_mod_cast this
    rw [Nat.cast_zero, float.recover_zero m e hm]
    omega
  have ht1n : 1 ≤ t := Nat.one_le_iff_ne_zero.mpr ht0
  have ht1q : (1 : ℚ) ≤ t := by exact_mod_cast ht1n
  obtain ⟨mO, eO, hofO, hvO⟩ := float.of_int_representable t n j hn htrep ht1n ht31n
  have hmO : 0 < mO := by
    rcases Nat.eq_zero_or_pos mO with h | h
    · subst h; simp at hvO; linarith
    · exact h
  have hu_pos : (0 : ℚ) < (t : ℚ) / X := by positivity
  have hu_ge : (1 : ℚ) / 4294967296 ≤ (t : ℚ) / X := by
    rw [le_div_iff₀ hXpos]; linarith
  have hu_lt : (t : ℚ) / X < 4294967296 := by
    rw [div_lt_iff₀ hXpos]; linarith
  have hu_hi : (t : ℚ) / X ≤ P + 16777215 / 16777216 := by
    rw [div_le_iff₀ hXpos]
    have e1 : ((P : ℚ) + 16777215 / 16777216) * X
        = P * X + 16777215 * (1 / 16777216) * X := by ring
    have e2 : (P : ℚ) * X * (1 / 16777216) = P * (1 / 16777216) * X := by ring
    have h4 : (P : ℚ) * (1 / 16777216) * X ≤ 16777215 * (1 / 16777216) * X :=
      mul_le_mul_of_nonneg_right (by linarith) hXpos.le
    rw [e1]; linarith
  have hu_lo : (P : ℚ) - 3 / 2 < (t : ℚ) / X := by
    rw [lt_div_iff₀ hXpos]
    have e1 : ((P : ℚ) - 3 / 2) * X = P * X - 3 / 2 * X := by ring
    rw [e1]; exact hlow
  obtain ⟨m4, e4, hdiv, hr4⟩ := float.div_rounds mO m eO e hmO hm
    (by rw [hvO, ← hXdef]; exact le_trans hpowlo hu_ge)
    (by rw [hvO, ← hXdef]; exact lt_of_lt_of_le hu_lt hpowhi)
  rw [hvO, ← hXdef, float.rounds] at hr4
  obtain ⟨hm4lt, -, hM2_4, hM1_4, habs4⟩ := hr4
  -- upper bound
  have hv4hi : (m4 : ℚ) * (2 : ℚ) ^ e4 ≤ P + 1 := by
    by_cases hplt : p + 1 < 2 ^ 24
    · have e1 : ((p + 1 : Nat) : ℚ) * (2 : ℚ) ^ (0 : Int) = P + 1 := by
        rw [zpow_zero, mul_one, Nat.cast_add, hpq, Nat.cast_one]
      have := hM2_4 (p + 1) 0 hplt (by rw [e1]; linarith)
      rw [e1] at this
      exact this
    · have hpe : P = 16777215 := by omega
      have e1 : ((1 : Nat) : ℚ) * (2 : ℚ) ^ (24 : Int) = P + 1 := by
        rw [hpe]; norm_num
      have := hM2_4 1 24 (by norm_num) (by rw [e1]; linarith)
      rw [e1] at this
      exact this
  have h231 : (2 : ℚ) ^ (31 : Int) = 2147483648 := by norm_num
  obtain ⟨R, hR, hRlo, hRhi⟩ := float.to_int_round_wide m4 e4 hm4lt (by rw [h231]; linarith)
  rw [hofO, hdiv, hR]
  constructor
  · -- lower bound
    by_cases hp1 : P ≤ 1
    · omega
    by_cases hpsmall : P ≤ 2 ^ 23 + 1
    · have hn3 : 2 * p - 3 < 2 ^ 24 := by omega
      have e1 : ((2 * p - 3 : Nat) : ℚ) * (2 : ℚ) ^ (-1 : Int) = P - 3 / 2 := by
        have h3 : 3 ≤ 2 * p := by omega
        rw [Nat.cast_sub h3, Nat.cast_mul, hpq]
        norm_num
        ring
      have hv4lo := hM1_4 (2 * p - 3) (-1) hn3 (by rw [e1]; exact hu_lo.le)
      rw [e1] at hv4lo
      have : (P : ℚ) - 2 < (R : ℚ) := by linarith
      have h' : P - 2 < (R : Int) := by exact_mod_cast this
      omega
    · have hPbig : (8388610 : ℚ) ≤ P := by
        have : (8388610 : Int) ≤ P := by omega
        exact_mod_cast this
      have hv4lo : (8388608 : ℚ) ≤ (m4 : ℚ) * (2 : ℚ) ^ e4 := by
        have e1 : ((1 : Nat) : ℚ) * (2 : ℚ) ^ (23 : Int) = 8388608 := by norm_num
        have := hM1_4 1 23 (by norm_num) (by rw [e1]; linarith)
        rw [e1] at this
        exact this
      have e24 : (2 : ℚ) ^ ((23 : Int) + 1) = 16777216 := by norm_num
      have habs := habs4 23 (by rw [e24]; linarith)
      have e2 : (2 : ℚ) ^ ((23 : Int) - 24) = 1 / 2 := by norm_num
      rw [e2] at habs
      obtain ⟨ha1, ha2⟩ := abs_le.mp habs
      have he4 : 0 ≤ e4 := by
        by_contra hcon
        have h1 : (2 : ℚ) ^ e4 ≤ 2 ^ (-1 : Int) := zpow_le_zpow_right₀ h12.le (by omega)
        have e3' : (2 : ℚ) ^ (-1 : Int) = 1 / 2 := by norm_num
        rw [e3'] at h1
        have h2 : (m4 : ℚ) * (2 : ℚ) ^ e4 ≤ m4 * (1 / 2) :=
          mul_le_mul_of_nonneg_left h1 (by positivity)
        have h3 : (m4 : ℚ) < ((2 ^ 24 : Nat) : ℚ) := by exact_mod_cast hm4lt
        have e1 : ((2 ^ 24 : Nat) : ℚ) = 16777216 := by norm_num
        rw [e1] at h3
        linarith
      have hnat : (m4 : ℚ) * (2 : ℚ) ^ e4 = ((m4 * 2 ^ e4.toNat : Nat) : ℚ) := by
        rw [Nat.cast_mul, two_pow_toNat_of_nonneg _ he4]
      rw [hnat] at hRlo ha1
      have h5 : ((m4 * 2 ^ e4.toNat : Nat) : ℚ) < (R : ℚ) + 1 := by linarith
      have h5n : m4 * 2 ^ e4.toNat < R + 1 := by exact_mod_cast h5
      have h6 : (P : ℚ) - 2 < ((m4 * 2 ^ e4.toNat : Nat) : ℚ) := by linarith
      have h6n : P - 2 < ((m4 * 2 ^ e4.toNat : Nat) : Int) := by exact_mod_cast h6
      omega
  · have : (R : ℚ) < (P : ℚ) + 2 := by linarith
    have h' : (R : Int) < P + 2 := by exact_mod_cast this
    omega

/-- The widget `recalculate` returns when there are at least two items. -/
theorem recalculate_of_steps (h : hooks) (s : slider_base)
    (hcount : 2 ≤ s.item_count_) (hint : s.item_count_ < 2 ^ 31)
    (hlen : to_unsigned (h.get_length s) ≠ 0)
    (havail : 0 < available_length h s) :
    recalculate h s = .ok (set_slider_position
      { s with
        positioner_length_ := h.positioner_length s
        pixels_per_step_ :=
          float.div (float.of_int (available_length h s - h.positioner_length s))
            (float.of_int (s.item_count_ - 1)) }
      s.item_position_) := by
  have hc : ¬ s.item_count_ ≤ 1 := by omega
  have hdiv : to_unsigned (to_unsigned (s.item_count_ - 2) + 1) = s.item_count_ - 1 := by
    unfold to_unsigned
    omega
  unfold available_length at havail
  unfold recalculate
  simp only [hlen, if_false, havail, not_true_eq_false, hc, recalculate_positioner, hdiv,
    available_length]

/-! ## The round trip through the pixel offset -/

/-- Counterexample to C14 as stated, in five runs of `recalculate`, each with
a positive step. With 4 items on a single pixel of travel the step is the float
nearest to 1/3 and position 2, at offset 0, is recovered as 0. With 10 items on
5 pixels the step is the float nearest to 5/9 and position 7, at offset 3, is
recovered as 5. With 301 items on 199 pixels the step is the float nearest to
199/300, just below 2/3, and position 101, at offset 66, is recovered as 99.
With `2^25 + 1` items on 33546244 pixels the step is `1 - 4094 * 2^-24`, and
the position `2^24 + 4098`, which is not a float, is recovered as
`2^24 + 4100`. With 2 items on `2^31 - 31` pixels the step is `2^31`, the
offset of position 1 does not fit the `int` member, and the position recovered
is -1. -/
theorem recalculate_round_trip_cramped :
    (((slider_set_item_count unplaced_hooks slider_base.init 4).map
        (fun s => set_slider_position s 2)).bind (recalculate cramped_hooks)).map
        (fun r => (r.item_count_, r.item_position_, r.pixels_per_step_,
          r.positioner_offset_, position_of_offset r))
        = .ok (4, 2, .finite false 11184811 (-25), 0, 0) ∧
      (((slider_set_item_count unplaced_hooks slider_base.init 10).map
        (fun s => set_slider_position s 7)).bind (recalculate short_hooks)).map
        (fun r => (r.item_count_, r.item_position_, r.pixels_per_step_,
          r.positioner_offset_, position_of_offset r))
        = .ok (10, 7, .finite false 9320676 (-24), 3, 5) ∧
      (((slider_set_item_count unplaced_hooks slider_base.init 301).map
        (fun s => set_slider_position s 101)).bind
          (recalculate { track_hooks with get_length := fun _ => 229 })).map
        (fun r => (r.item_count_, r.item_position_, r.pixels_per_step_,
          r.positioner_offset_, position_of_offset r))
        = .ok (301, 101, .finite false 11128887 (-24), 66, 99) ∧
      (((slider_set_item_count unplaced_hooks slider_base.init (2 ^ 25 + 1)).map
        (fun s => set_slider_position s (2 ^ 24 + 4098))).bind
          (recalculate { track_hooks with get_length := fun _ => 33546274 })).map
        (fun r => (r.item_count_, r.item_position_, r.pixels_per_step_,
          r.positioner_offset_, position_of_offset r))
        = .ok (2 ^ 25 + 1, 2 ^ 24 + 4098, .finite false 16773122 (-24), 2 ^ 24 + 4,
            2 ^ 24 + 4100) ∧
      (((slider_set_item_count unplaced_hooks slider_base.init 2).map
        (fun s => set_slider_position s 1)).bind
          (recalculate { track_hooks with get_length := fun _ => 2 ^ 31 - 1 })).map
        (fun r => (r.item_count_, r.item_position_, r.pixels_per_step_,
          r.positioner_offset_, position_of_offset r))
        = .ok (2, 1, .finite false 8388608 8, -(2 ^ 31), -1) := by
  refine ⟨?_, ?_, ?_, ?_, ?_⟩ <;> decide

/-- C14, amended: with at least two items and a position inside the range,
`recalculate` returns and keeps the position; if the step it computed is at
least 2/3 of a pixel, the position is below `2^24` and the position times the
step is at most `2^31 - 128`, then the position recovered from the pixel offset
differs from the position held by at most one. -/
theorem recalculate_round_trip (h : hooks) (s : slider_base)
    (hcount : 2 ≤ s.item_count_) (hint : s.item_count_ < 2 ^ 31)
    (hlen : to_unsigned (h.get_length s) ≠ 0)
    (havail : 0 < available_length h s)
    (hpos : 0 ≤ s.item_position_ ∧ s.item_position_ ≤ s.item_count_ - 1) :
    ∃ r, recalculate h s = .ok r ∧ r.item_position_ = s.item_position_ ∧
      (2 / 3 ≤ float.to_rat r.pixels_per_step_ →
        s.item_position_ < 2 ^ 24 →
        (s.item_position_ : ℚ) * float.to_rat r.pixels_per_step_ ≤ 2 ^ 31 - 128 →
        s.item_position_ - 1 ≤ position_of_offset r ∧
          position_of_offset r ≤ s.item_position_ + 1) := by
  have hcl : clamp s.item_position_ 0 (s.item_count_ - 1) = s.item_position_ := by
    unfold clamp
    omega
  refine ⟨_, recalculate_of_steps h s hcount hint hlen havail, hcl, ?_⟩
  intro h1 h24 h2
  generalize hq : float.div (float.of_int (available_length h s - h.positioner_length s))
    (float.of_int (s.item_count_ - 1)) = q at h1 h2 ⊢
  have h1' : 2 / 3 ≤ float.to_rat q := h1
  have h2' : (s.item_position_ : ℚ) * float.to_rat q ≤ 2 ^ 31 - 128 := h2
  obtain ⟨m, e, hqm, hval⟩ := float.finite_of_pos q (by linarith)
  rw [hval] at h1' h2'
  have key := float.offset_round_trip_wide s.item_position_ m e hpos.1 h24 h1' h2'
  have hrec : position_of_offset (set_slider_position
      { s with
        positioner_length_ := h.positioner_length s
        pixels_per_step_ := q }
      s.item_position_) =
      float.to_int (float.round (float.div
        (float.of_int (to_int (float.to_unsigned
          (float.mul (float.of_int s.item_position_) (.finite false m e)))))
        (.finite false m e))) := by
    simp only [position_of_offset, set_slider_position, update_canvas, hcl, hqm]
  rw [hrec]
  exact key

/-- Witness of the amended C14: the placed bar with 10 items at position 5 in a
window that leaves 6 pixels of travel. The step is the float nearest to 2/3,
which is not below 2/3, and the position recovered from the offset is within
one of 5. -/
theorem recalculate_round_trip_witness :
    ∃ r, recalculate snug_hooks (placed_slider 5) = .ok r ∧
      r.pixels_per_step_ = .finite false 11184811 (-24) ∧
      2 / 3 ≤ float.to_rat r.pixels_per_step_ ∧
      float.to_rat r.pixels_per_step_ < 1 ∧
      (placed_slider 5).item_position_ < 2 ^ 24 ∧
      ((placed_slider 5).item_position_ : ℚ) * float.to_rat r.pixels_per_step_
        ≤ 2 ^ 31 - 128 ∧
      (placed_slider 5).item_position_ - 1 ≤ position_of_offset r ∧
      position_of_offset r ≤ (placed_slider 5).item_position_ + 1 := by
  obtain ⟨r, hr, _, hround⟩ := recalculate_round_trip snug_hooks (placed_slider 5)
    (by decide) (by decide) (by decide) (by decide) (by decide)
  have hrun : (recalculate snug_hooks (placed_slider 5)).map (fun r => r.pixels_per_step_)
      = .ok (.finite false 11184811 (-24)) := by decide
  have hstep : r.pixels_per_step_ = .finite false 11184811 (-24) := by
    rw [hr] at hrun
    exact Except.ok.inj hrun
  have hpps : float.to_rat r.pixels_per_step_ = 11184811 / 16777216 := by
    rw [hstep, float.to_rat_finite]
    norm_num
  have hP : (placed_slider 5).item_position_ = 5 := rfl
  have h1 : 2 / 3 ≤ float.to_rat r.pixels_per_step_ := by rw [hpps]; norm_num
  have h24 : (placed_slider 5).item_position_ < 2 ^ 24 := by decide
  have h2 : ((placed_slider 5).item_position_ : ℚ) * float.to_rat r.pixels_per_step_
      ≤ 2 ^ 31 - 128 := by
    rw [hpps, hP]
    norm_num
  exact ⟨r, hr, hstep, h1, by rw [hpps]; norm_num, h24, h2, hround h1 h24 h2⟩

/-! ## Activation and hovering -/

/-- C22: after `set_active b` the getter `get_active` returns `b`; an active
widget is `DISABLED` after `set_active false`, a `DISABLED` widget is `ENABLED`
after `set_active true`, a widget with `get_active = b` is returned as it is,
and the item count and the position are never changed. -/
theorem set_active_spec (s : slider_base) (b : Bool) :
    get_active (set_active s b) = b ∧
      (get_active s = true → (set_active s false).state_ = .DISABLED) ∧
      (s.state_ = .DISABLED → (set_active s true).state_ = .ENABLED) ∧
      (get_active s = b → set_active s b = s) ∧
      (set_active s b).item_count_ = s.item_count_ ∧
      (set_active s b).item_position_ = s.item_position_ := by
  cases b <;> cases hs : s.state_ <;>
    simp [set_active, get_active, set_state, hs]

/-- Witness of C22: the pressed bar stays `PRESSED` under `set_active true`, the
placed bar goes to `DISABLED` under `set_active false` and back to `ENABLED`. -/
theorem set_active_spec_witness :
    get_active (pressed_slider 5) = true ∧
      set_active (pressed_slider 5) true = pressed_slider 5 ∧
      (set_active (placed_slider 5) false).state_ = .DISABLED ∧
      (set_active (set_active (placed_slider 5) false) true).state_ = .ENABLED :=
  ⟨by decide,
    (set_active_spec (pressed_slider 5) true).2.2.2.1 (by decide),
    (set_active_spec (placed_slider 5) false).2.1 (by decide),
    (set_active_spec (set_active (placed_slider 5) false) true).2.2.1 (by decide)⟩

/-- C23: a pointer motion or a pointer enter in state `ENABLED` or `FOCUSED`
returns with the state `FOCUSED` if the pointer is on the positioner and
`ENABLED` if not, the flag `handled` set and `halt` as it was; a pointer leave
turns `FOCUSED` into `ENABLED`, keeps every other state and sets `handled`. None
of them changes the position or fires `NOTIFY_MODIFIED`. -/
theorem hover_transitions (h : hooks) (s : slider_base) (handled halt : Bool)
    (coordinate : point) :
    ((s.state_ = .ENABLED ∨ s.state_ = .FOCUSED) →
      ∃ r, signal_handler_mouse_motion h s handled halt coordinate = .ok (r, true, halt) ∧
        signal_handler_mouse_enter h s handled halt coordinate = .ok (r, true, halt) ∧
        r.state_ =
          (if h.on_positioner s ⟨coordinate.x - h.get_x, coordinate.y - h.get_y⟩
            then .FOCUSED else .ENABLED) ∧
        r.item_position_ = s.item_position_ ∧
        r.notify_modified = s.notify_modified) ∧
    (signal_handler_mouse_leave s handled).2 = true ∧
    (signal_handler_mouse_leave s handled).1.state_
      = (if s.state_ = .FOCUSED then .ENABLED else s.state_) ∧
    (signal_handler_mouse_leave s handled).1.item_position_ = s.item_position_ ∧
    (signal_handler_mouse_leave s handled).1.notify_modified = s.notify_modified := by
  refine ⟨?_, rfl, ?_, ?_, ?_⟩
  · intro hs
    by_cases hp : h.on_positioner s ⟨coordinate.x - h.get_x, coordinate.y - h.get_y⟩ = true
    · rcases hs with hs | hs <;>
        simp [signal_handler_mouse_enter, signal_handler_mouse_motion, hs, hp, set_state]
    · rcases hs with hs | hs <;>
        simp [signal_handler_mouse_enter, signal_handler_mouse_motion, hs, hp, set_state]
  · cases hs : s.state_ <;> simp [signal_handler_mouse_leave, set_state, hs]
  · cases hs : s.state_ <;> simp [signal_handler_mouse_leave, set_state, hs]
  · cases hs : s.state_ <;> simp [signal_handler_mouse_leave, set_state, hs]

/-- Witness of C23: on the placed bar, `ENABLED`, a motion to `x = 60` lands on
the positioner and gives `FOCUSED`. -/
theorem hover_transitions_witness :
    (placed_slider 5).state_ = .ENABLED ∧
      ∃ r, signal_handler_mouse_motion track_hooks (placed_slider 5) false false ⟨60, 0⟩
          = .ok (r, true, false) ∧
        r.state_ = .FOCUSED ∧ r.item_position_ = 5 ∧ r.notify_modified = 0 := by
  obtain ⟨r, hr, _, hstate, hpos, hn⟩ :=
    (hover_transitions track_hooks (placed_slider 5) false false ⟨60, 0⟩).1 (Or.inl rfl)
  exact ⟨rfl, r, hr, hstate.trans (by decide), hpos.trans (by decide), hn.trans (by decide)⟩

/-! ## The drag path once more -/

/-- C24: a drag back to the start of the track divides by zero. On the bar with
10 items and 10 pixels per step, a press on the positioner at position 3
followed by a motion of -30 pixels, and a press at position 9 followed by a
motion of -90 pixels, both snap to position 0 and abort in `move_positioner`. -/
theorem drag_to_start_divides_by_zero :
    2 ≤ (placed_slider 3).item_count_ ∧
      float.is_positive (placed_slider 3).pixels_per_step_ = true ∧
      set_slider_position (placed_slider 5) 3 = placed_slider 3 ∧
      set_slider_position (placed_slider 5) 9 = placed_slider 9 ∧
      (signal_handler_left_button_down track_hooks (placed_slider 3) false ⟨40, 0⟩).bind
        (fun r => signal_handler_mouse_motion track_hooks r.1 false false ⟨10, 0⟩)
        = .error .division_by_zero ∧
      (signal_handler_left_button_down track_hooks (placed_slider 9) false ⟨100, 0⟩).bind
        (fun r => signal_handler_mouse_motion track_hooks r.1 false false ⟨10, 0⟩)
        = .error .division_by_zero := by
  decide

/-- C25: the offset a drag writes falls as the position rises and leaves the
track. From the same press at position 5, with `offset_before() = 0` and 90
pixels of travel, the drag to position 1 writes 900, the drag to position 7
writes 128 and the drag to position 8 writes 112. -/
theorem drag_offset_not_monotone :
    to_unsigned (track_hooks.offset_before (pressed_slider 5)) = 0 ∧
      available_length track_hooks (pressed_slider 5) - (pressed_slider 5).positioner_length_
        = 90 ∧
      (signal_handler_mouse_motion track_hooks (pressed_slider 5) false false ⟨20, 0⟩).map
        (fun r => (r.1.item_position_, r.1.positioner_offset_)) = .ok (1, 900) ∧
      (signal_handler_mouse_motion track_hooks (pressed_slider 5) false false ⟨84, 0⟩).map
        (fun r => (r.1.item_position_, r.1.positioner_offset_)) = .ok (7, 128) ∧
      (signal_handler_mouse_motion track_hooks (pressed_slider 5) false false ⟨94, 0⟩).map
        (fun r => (r.1.item_position_, r.1.positioner_offset_)) = .ok (8, 112) := by
  decide

/-! ## Press, drag, release -/

/-- What a returning `move_positioner` leaves alone and what it counts. -/
theorem move_positioner_effect (h : hooks) (s r : slider_base) (distance : Int)
    (hr : move_positioner h s distance = .ok r) :
    r.state_ = s.state_ ∧ r.mouse_capture = s.mouse_capture ∧
      r.notify_modified
        = s.notify_modified + (if r.item_position_ ≠ s.item_position_ then 1 else 0) := by
  unfold move_positioner at hr
  simp only at hr
  split_ifs at hr with h0 hne
  · injection hr with hr
    subst hr
    simp [update_canvas, fire_notify_modified, hne]
  · injection hr with hr
    subst hr
    simp [update_canvas]

/-- A returning motion event in state `PRESSED` keeps the state and the capture
and fires once if it changes the position, not at all if it does not. -/
theorem motion_pressed_effect (h : hooks) (s : slider_base) (handled halt : Bool)
    (coordinate : point) (r : slider_base × Bool × Bool)
    (hs : s.state_ = .PRESSED)
    (hr : signal_handler_mouse_motion h s handled halt coordinate = .ok r) :
    r.1.state_ = .PRESSED ∧ r.1.mouse_capture = s.mouse_capture ∧
      r.1.notify_modified
        = s.notify_modified + (if r.1.item_position_ ≠ s.item_position_ then 1 else 0) := by
  unfold signal_handler_mouse_motion at hr
  simp only [hs] at hr
  split_ifs at hr with hrange
  · cases hm : move_positioner h s (h.get_length_difference s s.drag_initial_mouse_
        ⟨coordinate.x - h.get_x, coordinate.y - h.get_y⟩) with
    | error e => rw [hm] at hr; simp at hr
    | ok s1 =>
      rw [hm] at hr
      injection hr with hr
      subst hr
      obtain ⟨a, b, c⟩ := move_positioner_effect h s s1 _ hm
      exact ⟨a.trans hs, b, c⟩
  · injection hr with hr
    subst hr
    simp [hs]

/-- A returning run of motion events in state `PRESSED` keeps the state and the
capture; the notifications it fires are its position changes, at most one for
each event. -/
theorem motion_events_pressed (h : hooks) (coords : List point) :
    ∀ s s2 : slider_base, s.state_ = .PRESSED → motion_events h s coords = .ok s2 →
      s2.state_ = .PRESSED ∧ s2.mouse_capture = s.mouse_capture ∧
        s2.notify_modified = s.notify_modified + position_changes h s coords ∧
        position_changes h s coords ≤ coords.length := by
  induction coords with
  | nil =>
    intro s s2 hs hrun
    simp only [motion_events] at hrun
    injection hrun with hrun
    subst hrun
    simp [position_changes, hs]
  | cons c cs ih =>
    intro s s2 hs hrun
    simp only [motion_events] at hrun
    cases hm : signal_handler_mouse_motion h s false false c with
    | error e => rw [hm] at hrun; simp at hrun
    | ok r =>
      rw [hm] at hrun
      simp only at hrun
      obtain ⟨a, b, n⟩ := motion_pressed_effect h s false false c r hs hm
      obtain ⟨a2, b2, n2, l2⟩ := ih r.1 s2 a hrun
      refine ⟨a2, b2.trans b, ?_, ?_⟩
      · simp only [position_changes, hm]
        rw [n2, n]
        omega
      · simp only [position_changes, hm, List.length_cons]
        split_ifs <;> omega

/-- Counterexample to C21 as stated. On the placed bar at position 5: press on
the positioner, drag to position 7 and on to position 8, release off the
positioner. The state ends `ENABLED` and the capture was acquired and released
once, but `NOTIFY_MODIFIED` has fired twice. The drag to position 7 and back to
position 5 also fires twice, although the final position is the position of the
press. -/
theorem press_drag_release_fires_per_change :
    (((signal_handler_left_button_down track_hooks (placed_slider 5) false ⟨60, 0⟩).bind
        (fun r => motion_events track_hooks r.1 [⟨84, 0⟩, ⟨94, 0⟩])).bind
        (fun s2 => signal_handler_left_button_up track_hooks s2 false ⟨0, 0⟩)).map
        (fun r => (r.1.state_, r.1.mouse_capture, r.1.item_position_, r.1.notify_modified))
        = .ok (.ENABLED, [false, true], 8, 2) ∧
      (((signal_handler_left_button_down track_hooks (placed_slider 5) false ⟨60, 0⟩).bind
        (fun r => motion_events track_hooks r.1 [⟨84, 0⟩, ⟨60, 0⟩])).bind
        (fun s2 => signal_handler_left_button_up track_hooks s2 false ⟨0, 0⟩)).map
        (fun r => (r.1.state_, r.1.mouse_capture, r.1.item_position_, r.1.notify_modified))
        = .ok (.ENABLED, [false, true], 5, 2) := by
  decide

/-- C21, amended: a left button down on the positioner of an `ENABLED` widget in
a window, with `on_bar` 0 there, returns in state `PRESSED` with one
`mouse_capture(true)` and no notification. Every run of motion events from
there that returns keeps `PRESSED` and the capture and fires `NOTIFY_MODIFIED`
once for each event that changes the position, so at most once an event and
never when no event changes it. A left button up off the positioner then
returns in state `ENABLED` with one `mouse_capture(false)`, no further
notification and the position kept. -/
theorem press_drag_release (h : hooks) (s : slider_base) (handled : Bool)
    (down up : point) (coords : List point)
    (hstate : s.state_ = .ENABLED) (hwin : h.get_window = true)
    (hon : h.on_positioner s ⟨down.x - h.get_x, down.y - h.get_y⟩ = true)
    (hbar : h.on_bar
      (set_state
        { s with
          drag_initial_mouse_ := ⟨down.x - h.get_x, down.y - h.get_y⟩
          drag_initial_position_ := s.item_position_
          mouse_capture := true :: s.mouse_capture }
        .PRESSED)
      ⟨down.x - h.get_x, down.y - h.get_y⟩ = 0) :
    ∃ s1, signal_handler_left_button_down h s handled down = .ok (s1, true) ∧
      s1.state_ = .PRESSED ∧ s1.mouse_capture = true :: s.mouse_capture ∧
      s1.notify_modified = s.notify_modified ∧ s1.item_position_ = s.item_position_ ∧
      ∀ s2, motion_events h s1 coords = .ok s2 →
        s2.state_ = .PRESSED ∧ s2.mouse_capture = true :: s.mouse_capture ∧
        s2.notify_modified = s.notify_modified + position_changes h s1 coords ∧
        position_changes h s1 coords ≤ coords.length ∧
        (h.on_positioner { s2 with mouse_capture := false :: s2.mouse_capture }
            ⟨up.x - h.get_x, up.y - h.get_y⟩ = false →
          ∃ s3, signal_handler_left_button_up h s2 true up = .ok (s3, true) ∧
            s3.state_ = .ENABLED ∧
            s3.mouse_capture = false :: true :: s.mouse_capture ∧
            s3.notify_modified = s2.notify_modified ∧
            s3.item_position_ = s2.item_position_) := by
  obtain ⟨s1, hs1⟩ : ∃ s1 : slider_base, s1 = set_state
      { s with
        drag_initial_mouse_ := ⟨down.x - h.get_x, down.y - h.get_y⟩
        drag_initial_position_ := s.item_position_
        mouse_capture := true :: s.mouse_capture }
      .PRESSED := ⟨_, rfl⟩
  have hdown : signal_handler_left_button_down h s handled down = .ok (s1, true) := by
    unfold signal_handler_left_button_down
    simp only [hon, hwin, not_true_eq_false, and_false, if_false, if_true, hbar]
    rw [hs1]
    simp
  have hst : s1.state_ = .PRESSED := by rw [hs1]; simp [set_state, hstate]
  have hcap1 : s1.mouse_capture = true :: s.mouse_capture := by
    rw [hs1]; simp [set_state, hstate]
  have hn1 : s1.notify_modified = s.notify_modified := by rw [hs1]; simp [set_state, hstate]
  have hpos1 : s1.item_position_ = s.item_position_ := by rw [hs1]; simp [set_state, hstate]
  refine ⟨s1, hdown, hst, hcap1, hn1, hpos1, ?_⟩
  intro s2 hrun
  obtain ⟨a, b, n, l⟩ := motion_events_pressed h coords s1 s2 hst hrun
  have hcap : s2.mouse_capture = true :: s.mouse_capture := b.trans hcap1
  refine ⟨a, hcap, by rw [n, hn1], l, ?_⟩
  intro hoff
  unfold signal_handler_left_button_up
  rw [if_neg (by simp [a]), if_neg (by simp [hwin])]
  dsimp only
  rw [if_neg (by simp [hoff])]
  refine ⟨_, rfl, ?_, ?_, ?_, ?_⟩ <;> simp [set_state, a, hcap]

/-- Witness of the amended C21: on the placed bar at position 5, a press at
`x = 60`, motions to `x = 84` and `x = 83`, which both snap to position 7, and
a release at `x = 0`: one notification. -/
theorem press_drag_release_witness :
    (placed_slider 5).state_ = .ENABLED ∧
      ∃ s1 s2 s3,
        signal_handler_left_button_down track_hooks (placed_slider 5) false ⟨60, 0⟩
          = .ok (s1, true) ∧
        motion_events track_hooks s1 [⟨84, 0⟩, ⟨83, 0⟩] = .ok s2 ∧
        signal_handler_left_button_up track_hooks s2 true ⟨0, 0⟩ = .ok (s3, true) ∧
        s1.state_ = .PRESSED ∧ s3.state_ = .ENABLED ∧
        s3.mouse_capture = [false, true] ∧
        s3.notify_modified = 1 ∧ s3.item_position_ = 7 := by
  obtain ⟨s1, hdown, hst, _, _, _, hrest⟩ :=
    press_drag_release track_hooks (placed_slider 5) false ⟨60, 0⟩ ⟨0, 0⟩
      [⟨84, 0⟩, ⟨83, 0⟩] rfl rfl (by decide) (by decide)
  have hs1 : s1 = pressed_slider 5 := by
    have h5 : signal_handler_left_button_down track_hooks (placed_slider 5) false ⟨60, 0⟩
        = .ok (pressed_slider 5, true) := by decide
    rw [h5] at hdown
    exact (congrArg Prod.fst (Except.ok.inj hdown)).symm
  subst hs1
  obtain ⟨s2, hrun, hpos2, hch⟩ : ∃ s2,
      motion_events track_hooks (pressed_slider 5) [⟨84, 0⟩, ⟨83, 0⟩] = .ok s2 ∧
      s2.item_position_ = 7 ∧
      track_hooks.on_positioner { s2 with mouse_capture := false :: s2.mouse_capture }
        ⟨0 - track_hooks.get_x, 0 - track_hooks.get_y⟩ = false ∧
      position_changes track_hooks (pressed_slider 5) [⟨84, 0⟩, ⟨83, 0⟩] = 1 :=
    ⟨{ pressed_slider 5 with
        item_position_ := 7
        positioner_offset_ := 128
        notify_modified := 1
        canvas_positioner_offset := 128 },
      by decide, by decide, by decide, by decide⟩
  obtain ⟨_, hcap2, hn2, _, hup⟩ := hrest s2 hrun
  obtain ⟨s3, hup3, hst3, hcap3, hn3, hpos3⟩ := hup hch.1
  refine ⟨rfl, pressed_slider 5, s2, s3, hdown, hrun, hup3, hst, hst3, hcap3, ?_, ?_⟩
  · rw [hn3, hn2, hch.2]
    rfl
  · rw [hpos3, hpos2]

end gui2
